import Mathlib

/-!
Shallow embedding of the lexical scanner of the pyshlang repository
(`src/utils/scanner.py`) and its error model (`src/utils/error.py`).

Conventions of the embedding:
* Source text is a `List Char`; Python string slicing `source[a:b]` is `pySlice`.
* Python's character class methods (`str.isspace`, `str.isdigit`, `str.isalpha`,
  `str.isalnum`, `str.lower`) are modelled on the ASCII range, which is the range
  the specification describes (ASCII digits, ASCII letters, `_`).
* Python's `float()` conversion, applied by the scanner only to matched substrings
  of the form `digits` or `digits.digits`, is modelled as the exact decimal value
  in `ℚ` (`pyFloat`); IEEE-754 rounding of that value is not modelled.
* The scanner's inner `while` loops are encoded as fuel-indexed structural
  recursions; every call site passes fuel strictly larger than the number of
  iterations the loop can perform, so the fuel-exhaustion branch is unreachable.
* Exceptions (`raise SHLError(...)`) are modelled with `Except SHLError`; a raise
  aborts the scan, so no partial token list escapes, exactly as in Python.
-/

namespace PyShlang

/-- Token kinds, one constructor per member of `TokenType` in `src/utils/scanner.py`. -/
inductive TokenType where
  | LEFT_PAREN | RIGHT_PAREN | LEFT_BRACE | RIGHT_BRACE | LEFT_BRACKET | RIGHT_BRACKET
  | COMMA | DOT | MINUS | PLUS | SEMICOLON | SLASH | STAR | COLON | EQUAL
  | BANG_EQUAL | EQUAL_EQUAL | GREATER | GREATER_EQUAL | LESS | LESS_EQUAL | ARROW
  | IDENTIFIER | STRING | NUMBER
  | AND | OR | IF | ELSE | TRUE | FALSE | FOR | WHILE | FN | RETURN | VAR | IMPORT
  | IN | BANG | CLASS | NIL | DISPLAY | READ | EOF
deriving DecidableEq, Repr

/-- Literal payload of a token: a string for STRING tokens, a number for NUMBER
tokens (the decimal value of the matched substring, see `pyFloat`). -/
inductive Literal where
  | str : String → Literal
  | num : ℚ → Literal
deriving DecidableEq, Repr

/-- The `Token` dataclass of `src/utils/scanner.py`. -/
structure Token where
  type : TokenType
  lexeme : List Char
  literal : Option Literal
  line : Nat
  colStart : Nat
  colEnd : Nat
deriving DecidableEq, Repr

/-- The `SHLError` dataclass of `src/utils/error.py`, with the field values it
holds after `__init__` ran: `line` and `col_start` are stored as `0` when the
argument was `None`, while `col_end` stores whatever the `col_end` argument was,
defaulted to the `col_start` argument. -/
structure SHLError where
  message : String
  file : Option String
  line : Nat
  colStart : Nat
  colEnd : Option Nat
  srcLine : Option String
deriving DecidableEq, Repr

/-- Constructor of `SHLError` (`__init__` in `src/utils/error.py`): `line` and
`col_start` default to `0`, `col_end` defaults to the `col_start` argument, and
`file`/`src_line` stay optional. -/
def SHLError.make (message : String) (file : Option String) (line : Option Nat)
    (colStart : Option Nat) (colEnd : Option Nat) (srcLine : Option String) : SHLError :=
  { message := message
    file := file
    line := line.getD 0
    colStart := colStart.getD 0
    colEnd := match colEnd with | some v => some v | none => colStart
    srcLine := srcLine }

/-- Decidable equality for `Except` results, used to evaluate the scanner on
concrete inputs inside proofs. -/
def exceptDecEq {ε α : Type} [DecidableEq ε] [DecidableEq α] : DecidableEq (Except ε α)
  | .error x, .error y =>
    match decEq x y with
    | isTrue h => isTrue (h ▸ rfl)
    | isFalse h => isFalse fun hc => h (by injection hc)
  | .error _, .ok _ => isFalse fun hc => Except.noConfusion hc
  | .ok _, .error _ => isFalse fun hc => Except.noConfusion hc
  | .ok x, .ok y =>
    match decEq x y with
    | isTrue h => isTrue (h ▸ rfl)
    | isFalse h => isFalse fun hc => h (by injection hc)

instance {ε α : Type} [DecidableEq ε] [DecidableEq α] : DecidableEq (Except ε α) :=
  exceptDecEq

/-- Python truthiness of an optional string (`None` and `""` are falsy). -/
def truthyStr : Option String → Bool
  | none => false
  | some s => !s.isEmpty

/-- Python truthiness of an optional integer (`None` and `0` are falsy). -/
def truthyNat : Option Nat → Bool
  | none => false
  | some n => n != 0

/-- Rendering of an error, `SHLError.__str__` in `src/utils/error.py`.
Note that a present file name appends a second line `"{file}: Error: {message}"`
to the result (`result += f"\n{file}: {result}"`), the line/source line is shown
only when both `line` and `src_line` are truthy, the caret additionally requires
a truthy `col_start`, and `"-- Here."` follows the pointer with no space. -/
def SHLError.render (e : SHLError) : String :=
  let r1 := "Error: " ++ e.message
  let r2 := if truthyStr e.file then r1 ++ "\n" ++ e.file.getD "" ++ ": " ++ r1 else r1
  if e.line ≠ 0 ∧ truthyStr e.srcLine then
    let r3 := r2 ++ "\n" ++ toString e.line ++ " | " ++ e.srcLine.getD ""
    if e.colStart ≠ 0 then
      let pointer := String.mk (List.replicate ((toString e.line).length + 3 + e.colStart) ' ') ++ "^"
      let pointer :=
        if truthyNat e.colEnd ∧ e.colEnd.getD 0 > e.colStart then
          pointer ++ String.mk (List.replicate (e.colEnd.getD 0 - e.colStart - 1) '~')
        else pointer
      r3 ++ "\n" ++ pointer ++ "-- Here."
    else r3
  else r2

/-- Python `str.isspace` restricted to the ASCII range: tab, newline, vertical
tab, form feed, carriage return, the file/group/record/unit separators, space. -/
def pyIsSpace (c : Char) : Bool :=
  decide (c.toNat ∈ ([9, 10, 11, 12, 13, 28, 29, 30, 31, 32] : List Nat))

/-- Python `str.isdigit` restricted to the ASCII range: `'0'`–`'9'`. -/
def pyIsDigit (c : Char) : Bool :=
  decide (48 ≤ c.toNat ∧ c.toNat ≤ 57)

/-- Python `str.isalpha` restricted to the ASCII range: `'A'`–`'Z'` and `'a'`–`'z'`. -/
def pyIsAlpha (c : Char) : Bool :=
  decide ((65 ≤ c.toNat ∧ c.toNat ≤ 90) ∨ (97 ≤ c.toNat ∧ c.toNat ≤ 122))

/-- Python `str.isalnum` restricted to the ASCII range. -/
def pyIsAlnum (c : Char) : Bool :=
  pyIsAlpha c || pyIsDigit c

/-- Python `str.lower` on one character, restricted to the ASCII range. -/
def pyToLower (c : Char) : Char :=
  if 65 ≤ c.toNat ∧ c.toNat ≤ 90 then Char.ofNat (c.toNat + 32) else c

/-- The keyword dictionary `_keywords` of the `Scanner`, as an association list. -/
def keywords : List (String × TokenType) :=
  [("and", .AND), ("or", .OR), ("if", .IF), ("else", .ELSE), ("true", .TRUE),
   ("false", .FALSE), ("for", .FOR), ("while", .WHILE), ("fn", .FN),
   ("return", .RETURN), ("var", .VAR), ("import", .IMPORT), ("in", .IN),
   ("class", .CLASS), ("nil", .NIL), ("display", .DISPLAY), ("read", .READ)]

/-- Dictionary lookup `self._keywords.get(text, ...)` (the `get` default is
applied at the call site in `identifierFn`). -/
def keywordType (s : String) : Option TokenType :=
  (keywords.find? (fun kv => kv.1 == s)).map (fun kv => kv.2)

/-- The single-character token dictionary `_single_char_tokens`: membership test
and lookup are both `singleCharToken c`. -/
def singleCharToken : Char → Option TokenType
  | '(' => some .LEFT_PAREN
  | ')' => some .RIGHT_PAREN
  | '{' => some .LEFT_BRACE
  | '}' => some .RIGHT_BRACE
  | '[' => some .LEFT_BRACKET
  | ']' => some .RIGHT_BRACKET
  | ',' => some .COMMA
  | '.' => some .DOT
  | '-' => some .MINUS
  | '+' => some .PLUS
  | ';' => some .SEMICOLON
  | '/' => some .SLASH
  | '*' => some .STAR
  | ':' => some .COLON
  | '=' => some .EQUAL
  | '>' => some .GREATER
  | '<' => some .LESS
  | '!' => some .BANG
  | _ => none

/-- The two-character operator dictionary `_two_char_tokens`, keyed by the pair
of characters whose concatenation `c + next_char` the Python code looks up. -/
def twoCharToken : Char → Char → Option TokenType
  | '!', '=' => some .BANG_EQUAL
  | '=', '=' => some .EQUAL_EQUAL
  | '>', '=' => some .GREATER_EQUAL
  | '<', '=' => some .LESS_EQUAL
  | '=', '>' => some .ARROW
  | _, _ => none

/-- Python slice `source[a:b]` for `0 ≤ a ≤ b` (the only shape the scanner uses). -/
def pySlice (src : List Char) (a b : Nat) : List Char :=
  (src.take b).drop a

/-- The mutable state of the `Scanner` instance: exactly the six fields that
`scan_tokens` resets at the start of every call. -/
structure ScanState where
  tokens : List Token
  source : List Char
  current : Nat
  start : Nat
  line : Nat
  column : Nat
deriving DecidableEq, Repr

/-- `is_at_end`: `self.current >= len(self.source)`. -/
def ScanState.isAtEnd (st : ScanState) : Bool :=
  st.source.length ≤ st.current

/-- `peek`: the character at `current`, or `'\0'` at end of input. -/
def ScanState.peek (st : ScanState) : Char :=
  st.source.getD st.current '\x00'

/-- `peek_next`: the character at `current + 1`, or `'\0'` past the end. -/
def ScanState.peekNext (st : ScanState) : Char :=
  st.source.getD (st.current + 1) '\x00'

/-- The state effect of `advance`: `current += 1; column += 1`. The character it
returns is `st.peek` (only ever used when `current < len(source)`). -/
def ScanState.advance (st : ScanState) : ScanState :=
  { st with current := st.current + 1, column := st.column + 1 }

/-- `match(expected)`: consume the current character iff it equals `expected`. -/
def ScanState.matchChar (st : ScanState) (expected : Char) : Bool × ScanState :=
  if st.isAtEnd then (false, st)
  else if st.source.getD st.current '\x00' != expected then (false, st)
  else (true, st.advance)

/-- `add_token`: append a token whose lexeme is `source[start:current]` and whose
`col_start`/`col_end` are the byte offsets `start`/`current`. -/
def ScanState.addToken (st : ScanState) (tt : TokenType) (lit : Option Literal) : ScanState :=
  { st with tokens := st.tokens ++
      [{ type := tt, lexeme := pySlice st.source st.start st.current, literal := lit,
         line := st.line, colStart := st.start, colEnd := st.current }] }

/-- The comment loop of `scan_token`: `while peek() != '\n' and not is_at_end(): advance()`. -/
def skipCommentF : Nat → ScanState → ScanState
  | 0, st => st
  | f + 1, st =>
    if st.peek != '\n' && !st.isAtEnd then skipCommentF f st.advance else st

/-- The body loop of `string`: advance past every character that is not the
opening quote, bumping `line` and resetting `column` on each newline. -/
def stringLoopF : Nat → Char → ScanState → ScanState
  | 0, _, st => st
  | f + 1, q, st =>
    if st.peek != q && !st.isAtEnd then
      stringLoopF f q
        (ScanState.advance (if st.peek == '\n' then { st with line := st.line + 1, column := 1 } else st))
    else st

/-- `string(quote)`: scan to the matching quote; unterminated input raises
`SHLError("Unterminated string.")` at the current line/column; on success the
literal is the verbatim text strictly between the quotes. -/
def stringFn (q : Char) (st : ScanState) : Except SHLError ScanState :=
  let st2 := stringLoopF (st.source.length + 1) q st
  if st2.isAtEnd then
    .error (SHLError.make "Unterminated string." none (some st2.line) (some st2.column) none none)
  else
    let st3 := st2.advance
    .ok (st3.addToken .STRING
      (some (Literal.str (String.mk (pySlice st3.source (st3.start + 1) (st3.current - 1))))))

/-- The digit loop of `number`: `while peek().isdigit(): advance()`. -/
def digitsLoopF : Nat → ScanState → ScanState
  | 0, st => st
  | f + 1, st =>
    if pyIsDigit st.peek then digitsLoopF f st.advance else st

/-- The natural number denoted by a run of decimal digits. -/
def digitsToNat (ds : List Char) : Nat :=
  ds.foldl (fun acc c => acc * 10 + (c.toNat - 48)) 0

/-- The decimal value of a matched number substring (`digits` or
`digits.digits`), i.e. the exact rational `int.frac = int + frac / 10^k` that
Python's `float()` rounds to binary (IEEE rounding is not modelled). -/
def pyFloat (s : List Char) : ℚ :=
  let intPart := s.takeWhile (fun c => c != '.')
  let rest := s.dropWhile (fun c => c != '.')
  match rest with
  | [] => (digitsToNat intPart : ℚ)
  | _ :: frac =>
    mkRat (digitsToNat intPart * 10 ^ frac.length + digitsToNat frac) (10 ^ frac.length)

/-- The rational value of a run of decimal digits. -/
def digitsVal (ds : List Char) : ℚ :=
  (digitsToNat ds : ℚ)

/-- `number()`: digits, then a `.` only if the character after it is a digit,
then more digits; the literal is the value of the matched substring. -/
def numberFn (st : ScanState) : ScanState :=
  let st1 := digitsLoopF (st.source.length + 1) st
  let st2 :=
    if st1.peek == '.' && pyIsDigit st1.peekNext then
      digitsLoopF (st1.source.length + 1) st1.advance
    else st1
  st2.addToken .NUMBER (some (Literal.num (pyFloat (pySlice st2.source st2.start st2.current))))

/-- The identifier loop of `identifier`: `while peek().isalnum() or peek() == '_': advance()`. -/
def identLoopF : Nat → ScanState → ScanState
  | 0, st => st
  | f + 1, st =>
    if pyIsAlnum st.peek || st.peek == '_' then identLoopF f st.advance else st

/-- `identifier()`: scan the identifier characters, lower-case the matched text,
and look it up in the keyword table, defaulting to IDENTIFIER. -/
def identifierFn (st : ScanState) : ScanState :=
  let st1 := identLoopF (st.source.length + 1) st
  let text := pySlice st1.source st1.start st1.current
  st1.addToken ((keywordType (String.mk (text.map pyToLower))).getD .IDENTIFIER) none

/-- `scan_token`: advance over one character and dispatch on it, mirroring the
branch order of `Scanner.scan_token` in `src/utils/scanner.py`. -/
def scanToken (st0 : ScanState) : Except SHLError ScanState :=
  let c := st0.peek
  let st := st0.advance
  if pyIsSpace c then
    .ok (if c == '\n' then { st with line := st.line + 1, column := 1 } else st)
  else if c == '/' && (st.matchChar '/').1 then
    .ok (skipCommentF (st.source.length + 1) (st.matchChar '/').2)
  else
    match singleCharToken c with
    | some tt =>
      if (c == '!' || c == '=' || c == '>' || c == '<') && (st.peek == '=' || st.peek == '>') then
        let d := st.peek
        let st2 := st.advance
        match twoCharToken c d with
        | some tt2 => .ok (st2.addToken tt2 none)
        | none =>
          .ok (ScanState.addToken
            { st2 with current := st2.current - 1, column := st2.column - 1 } tt none)
      else .ok (st.addToken tt none)
    | none =>
      if c == '"' || c == '\'' then stringFn c st
      else if pyIsDigit c then .ok (numberFn st)
      else if pyIsAlpha c || c == '_' then .ok (identifierFn st)
      else .error (SHLError.make ("Unexpected character: '" ++ String.singleton c ++ "'")
        none (some st.line) (some (st.column - 1)) none none)

/-- The main loop of `scan_tokens`: while not at end, set `start := current` and
scan one token; the first raised error aborts the whole loop. -/
def scanLoopF : Nat → ScanState → Except SHLError ScanState
  | 0, st => .ok st
  | f + 1, st =>
    if st.isAtEnd then .ok st
    else
      match scanToken { st with start := st.current } with
      | .error e => .error e
      | .ok st2 => scanLoopF f st2

/-- The state `scan_tokens` installs before scanning: every mutable field of the
scanner is overwritten, regardless of what a previous call left behind. -/
def resetState (st : ScanState) (src : List Char) : ScanState :=
  { st with tokens := [], source := src, current := 0, start := 0, line := 1, column := 1 }

/-- `scan_tokens(src)` called on a scanner whose mutable state is `st`: reset the
state, run the loop, then append the final EOF token at the current line/column. -/
def scanTokensFrom (st : ScanState) (src : List Char) : Except SHLError (List Token) :=
  match scanLoopF (src.length + 1) (resetState st src) with
  | .error e => .error e
  | .ok st2 => .ok (st2.tokens ++
      [{ type := .EOF, lexeme := [], literal := none, line := st2.line,
         colStart := st2.column, colEnd := st2.column }])

/-- The scanner state directly after `Scanner.__init__`. -/
def initialScanner : ScanState :=
  ⟨[], [], 0, 0, 1, 1⟩

/-- `scan_tokens` on a freshly constructed scanner, over a character list. -/
def scanTokensL (src : List Char) : Except SHLError (List Token) :=
  scanTokensFrom initialScanner src

/-- `scan_tokens` on a freshly constructed scanner, over a string. -/
def scanTokens (src : String) : Except SHLError (List Token) :=
  scanTokensL src.data

/-- The per-token emission invariant: the lexeme is the `[col_start, col_end)`
slice of the source, and no token emitted by the loop is an EOF token. -/
def TokOk (src : List Char) (t : Token) : Prop :=
  t.lexeme = pySlice src t.colStart t.colEnd ∧ t.type ≠ .EOF

/-- Inputs consisting only of whitespace and `//` comments: a comment runs from
`//` to the next newline (exclusive) or to the end of the input. -/
inductive WsComments : List Char → Prop where
  | nil : WsComments []
  | ws {c : Char} {rest : List Char} :
      pyIsSpace c = true → WsComments rest → WsComments (c :: rest)
  | comment {body rest : List Char} :
      (∀ x ∈ body, x ≠ '\n') → (rest = [] ∨ rest.head? = some '\n') →
      WsComments rest → WsComments ('/' :: '/' :: (body ++ rest))

/-- The rendering format described by the (amended) specification sentence,
assembled in one formula per case: the header line; a second line
`"{file}: Error: {message}"` appended when a file name is present; the
`"{line} | {src_line}"` line when `line` is nonzero and `src_line` is a
non-empty string; and, additionally requiring a nonzero `col_start`, a pointer
line of `col_start` spaces plus the width of the `"{line} | "` prefix, a caret,
`col_end - col_start - 1` tildes when `col_end` is set and exceeds `col_start`,
and a trailing `"-- Here."` with no space before it. -/
def renderSpec (m : String) (file : Option String) (line : Nat) (colStart : Nat)
    (colEnd : Option Nat) (srcLine : Option String) : String :=
  let header := "Error: " ++ m
  let top := if truthyStr file then header ++ "\n" ++ file.getD "" ++ ": " ++ header else header
  if line = 0 ∨ ¬ truthyStr srcLine then top
  else if colStart = 0 then top ++ "\n" ++ toString line ++ " | " ++ srcLine.getD ""
  else
    top ++ "\n" ++ toString line ++ " | " ++ srcLine.getD "" ++ "\n"
      ++ String.mk (List.replicate ((toString line).length + 3 + colStart) ' ') ++ "^"
      ++ (if colEnd.getD 0 > colStart then
            String.mk (List.replicate (colEnd.getD 0 - colStart - 1) '~')
          else "")
      ++ "-- Here."

/-! ## The scanner under the full character classes, on the Latin-1 range

Python's `str.isspace`, `str.isdigit`, `str.isalpha` and `str.isalnum` are
Unicode-aware; the classes above model only their ASCII restriction. The
variants below extend them to be exact on every code point below U+0100 (the
Latin-1 range), and `scanTokenU`/`scanTokensLU` is the scanner rebuilt from
them — the same dispatch, branch for branch, as `scanToken` — together with
the `float()` conversion step of `number()`, which raises `ValueError` (not an
`SHLError`) when the matched lexeme contains a digit character that is not a
decimal digit. No statement below applies these classes to characters at or
above U+0100. -/

/-- Every character of the list is ASCII (code point below 128): the domain on
which the ASCII character classes agree with Python's Unicode-aware ones. -/
abbrev AsciiSrc (l : List Char) : Prop := ∀ c ∈ l, c.toNat < 128

/-- Python `str.isspace` on the Latin-1 range: the ASCII whitespace plus
U+0085 (next line) and U+00A0 (no-break space). -/
def pyIsSpaceU (c : Char) : Bool :=
  pyIsSpace c || c.toNat == 0x85 || c.toNat == 0xA0

/-- Python `str.isalpha` on the Latin-1 range: the ASCII letters plus
`ª` (U+00AA), `µ` (U+00B5), `º` (U+00BA) and the letters U+00C0–U+00FF other
than `×` (U+00D7) and `÷` (U+00F7). -/
def pyIsAlphaU (c : Char) : Bool :=
  pyIsAlpha c ||
    decide (c.toNat = 0xAA ∨ c.toNat = 0xB5 ∨ c.toNat = 0xBA ∨
      (0xC0 ≤ c.toNat ∧ c.toNat ≤ 0xFF ∧ c.toNat ≠ 0xD7 ∧ c.toNat ≠ 0xF7))

/-- Python `str.isdigit` on the Latin-1 range: the ASCII digits plus the
superscripts `¹` (U+00B9), `²` (U+00B2) and `³` (U+00B3), which are
`isdigit`-true but not decimal digits. -/
def pyIsDigitU (c : Char) : Bool :=
  pyIsDigit c || decide (c.toNat ∈ ([0xB2, 0xB3, 0xB9] : List Nat))

/-- Python `str.isalnum` on the Latin-1 range (`isalpha or isdecimal or
isdigit or isnumeric`): the classes above plus the vulgar fractions
`¼ ½ ¾` (U+00BC–U+00BE), which are `isnumeric` only. -/
def pyIsAlnumU (c : Char) : Bool :=
  pyIsAlphaU c || pyIsDigitU c ||
    decide (c.toNat ∈ ([0xBC, 0xBD, 0xBE] : List Nat))

/-- The digit loop of `number` under the Latin-1 `isdigit`. -/
def digitsLoopFU : Nat → ScanState → ScanState
  | 0, st => st
  | f + 1, st =>
    if pyIsDigitU st.peek then digitsLoopFU f st.advance else st

/-- The identifier loop of `identifier` under the Latin-1 `isalnum`. -/
def identLoopFU : Nat → ScanState → ScanState
  | 0, st => st
  | f + 1, st =>
    if pyIsAlnumU st.peek || st.peek == '_' then identLoopFU f st.advance else st

/-- `identifier()` under the Latin-1 classes. `str.lower` enters only the
keyword lookup; since every keyword is ASCII lower-case, lower-casing a
non-ASCII letter can never produce a keyword, so the ASCII `pyToLower` is
outcome-faithful here. -/
def identifierFnU (st : ScanState) : ScanState :=
  let st1 := identLoopFU (st.source.length + 1) st
  let text := pySlice st1.source st1.start st1.current
  st1.addToken ((keywordType (String.mk (text.map pyToLower))).getD .IDENTIFIER) none

/-- A failure escaping `scan_tokens`: either the raised `SHLError`, or the
`ValueError` that Python's `float()` raises inside `number()` when the matched
lexeme contains a digit (per `isdigit`) that is not a decimal digit — below
U+0100 exactly the superscripts `¹ ² ³`. -/
inductive PyFault where
  | shl (e : SHLError)
  | valueError (msg : String)
deriving DecidableEq, Repr

/-- Embeds the `SHLError`-only result of the ASCII scanner into the fault type
of the Latin-1 scanner. -/
def liftSHL {α : Type} : Except SHLError α → Except PyFault α
  | .error e => .error (.shl e)
  | .ok a => .ok a

/-- `number()` under the Latin-1 `isdigit`, including the `float()` conversion:
on the lexemes this branch can match (characters that are `isdigit`-true plus
at most one `'.'`), `float()` succeeds exactly when every character is ASCII —
then the lexeme is decimal digits and at most one dot — and raises
`ValueError` when a superscript digit is present. -/
def numberFnU (st : ScanState) : Except PyFault ScanState :=
  let st1 := digitsLoopFU (st.source.length + 1) st
  let st2 :=
    if st1.peek == '.' && pyIsDigitU st1.peekNext then
      digitsLoopFU (st1.source.length + 1) st1.advance
    else st1
  let text := pySlice st2.source st2.start st2.current
  if text.all (fun c => decide (c.toNat < 128)) then
    .ok (st2.addToken .NUMBER (some (Literal.num (pyFloat text))))
  else
    .error (.valueError ("could not convert string to float: '" ++ String.mk text ++ "'"))

/-- `scan_token` under the Latin-1 character classes: the same dispatch order
as `scanToken`, with the `ValueError` of `float()` surfaced through `PyFault`. -/
def scanTokenU (st0 : ScanState) : Except PyFault ScanState :=
  let c := st0.peek
  let st := st0.advance
  if pyIsSpaceU c then
    .ok (if c == '\n' then { st with line := st.line + 1, column := 1 } else st)
  else if c == '/' && (st.matchChar '/').1 then
    .ok (skipCommentF (st.source.length + 1) (st.matchChar '/').2)
  else
    match singleCharToken c with
    | some tt =>
      if (c == '!' || c == '=' || c == '>' || c == '<') && (st.peek == '=' || st.peek == '>') then
        let d := st.peek
        let st2 := st.advance
        match twoCharToken c d with
        | some tt2 => .ok (st2.addToken tt2 none)
        | none =>
          .ok (ScanState.addToken
            { st2 with current := st2.current - 1, column := st2.column - 1 } tt none)
      else .ok (st.addToken tt none)
    | none =>
      if c == '"' || c == '\'' then liftSHL (stringFn c st)
      else if pyIsDigitU c then numberFnU st
      else if pyIsAlphaU c || c == '_' then .ok (identifierFnU st)
      else .error (.shl (SHLError.make ("Unexpected character: '" ++ String.singleton c ++ "'")
        none (some st.line) (some (st.column - 1)) none none))

/-- The main loop of `scan_tokens` over `scanTokenU`. -/
def scanLoopFU : Nat → ScanState → Except PyFault ScanState
  | 0, st => .ok st
  | f + 1, st =>
    if st.isAtEnd then .ok st
    else
      match scanTokenU { st with start := st.current } with
      | .error e => .error e
      | .ok st2 => scanLoopFU f st2

/-- `scan_tokens` on a freshly constructed scanner, under the Latin-1 classes. -/
def scanTokensLU (src : List Char) : Except PyFault (List Token) :=
  match scanLoopFU (src.length + 1) (resetState initialScanner src) with
  | .error e => .error e
  | .ok st2 => .ok (st2.tokens ++
      [{ type := .EOF, lexeme := [], literal := none, line := st2.line,
         colStart := st2.column, colEnd := st2.column }])

/-! ## Auxiliary list and state lemmas -/

theorem getD_of_drop : ∀ (l : List Char) (n : Nat) {c : Char} {r : List Char} (d : Char),
    l.drop n = c :: r → l.getD n d = c := by
  intro l
  induction l with
  | nil => intro n c r d h; simp at h
  | cons a t ih =>
    intro n c r d h
    cases n with
    | zero =>
      rw [List.drop_zero] at h
      cases h
      rfl
    | succ n =>
      simpa using ih n d h

theorem lt_length_of_drop {l : List Char} {n : Nat} {c : Char} {r : List Char}
    (h : l.drop n = c :: r) : n < l.length := by
  have hlen := congrArg List.length h
  simp [List.length_drop] at hlen
  omega

theorem drop_succ_eq : ∀ (l : List Char) (n : Nat) {c : Char} {r : List Char},
    l.drop n = c :: r → l.drop (n + 1) = r := by
  intro l
  induction l with
  | nil => intro n c r h; simp at h
  | cons a t ih =>
    intro n c r h
    cases n with
    | zero =>
      rw [List.drop_zero] at h
      cases h
      simp
    | succ n =>
      simpa using ih n h

theorem le_length_of_drop_nil {l : List Char} {n : Nat} (h : l.drop n = []) :
    l.length ≤ n := by
  have hlen := congrArg List.length h
  simp [List.length_drop] at hlen
  omega

theorem ScanState.peek_of_drop {st : ScanState} {c : Char} {r : List Char}
    (h : st.source.drop st.current = c :: r) : st.peek = c :=
  getD_of_drop _ _ _ h

theorem ScanState.isAtEnd_false_of_drop {st : ScanState} {c : Char} {r : List Char}
    (h : st.source.drop st.current = c :: r) : st.isAtEnd = false := by
  have := lt_length_of_drop h
  simp [ScanState.isAtEnd]
  omega

theorem ScanState.isAtEnd_true_of_drop {st : ScanState}
    (h : st.source.drop st.current = []) : st.isAtEnd = true := by
  have := le_length_of_drop_nil h
  simpa [ScanState.isAtEnd]

theorem ScanState.advance_drop {st : ScanState} {c : Char} {r : List Char}
    (h : st.source.drop st.current = c :: r) :
    st.advance.source.drop st.advance.current = r := by
  simpa [ScanState.advance] using drop_succ_eq _ _ h

/-! ## Table lemmas -/

theorem singleCharToken_ne_EOF {c : Char} {tt : TokenType}
    (h : singleCharToken c = some tt) : tt ≠ .EOF := by
  intro hEOF
  subst hEOF
  unfold singleCharToken at h
  split at h
  all_goals simp_all

theorem twoCharToken_ne_EOF {c d : Char} {tt : TokenType}
    (h : twoCharToken c d = some tt) : tt ≠ .EOF := by
  intro hEOF
  subst hEOF
  unfold twoCharToken at h
  split at h
  all_goals simp_all

theorem keywordType_ne_EOF {s : String} {tt : TokenType}
    (h : keywordType s = some tt) : tt ≠ .EOF := by
  unfold keywordType at h
  cases hf : keywords.find? (fun kv => kv.1 == s) with
  | none => rw [hf] at h; simp at h
  | some kv =>
    rw [hf] at h
    simp at h
    have hm := List.mem_of_find?_eq_some hf
    subst h
    simp only [keywords, List.mem_cons, List.not_mem_nil, or_false] at hm
    rcases hm with rfl|rfl|rfl|rfl|rfl|rfl|rfl|rfl|rfl|rfl|rfl|rfl|rfl|rfl|rfl|rfl|rfl <;> decide

theorem singleCharToken_ne_slash {c : Char} (h : singleCharToken c = none) : c ≠ '/' := by
  intro hc
  subst hc
  exact absurd h (by decide)

/-! ## Field-preservation lemmas for the loops -/

theorem skipCommentF_fields (f : Nat) : ∀ st : ScanState,
    (skipCommentF f st).tokens = st.tokens ∧ (skipCommentF f st).source = st.source ∧
    (skipCommentF f st).start = st.start ∧ (skipCommentF f st).line = st.line := by
  induction f with
  | zero => intro st; exact ⟨rfl, rfl, rfl, rfl⟩
  | succ f ih =>
    intro st
    rw [skipCommentF]
    split
    · simpa [ScanState.advance] using ih st.advance
    · exact ⟨rfl, rfl, rfl, rfl⟩

theorem stringLoopF_fields (f : Nat) (q : Char) : ∀ st : ScanState,
    (stringLoopF f q st).tokens = st.tokens ∧ (stringLoopF f q st).source = st.source ∧
    (stringLoopF f q st).start = st.start := by
  induction f with
  | zero => intro st; exact ⟨rfl, rfl, rfl⟩
  | succ f ih =>
    intro st
    rw [stringLoopF]
    split
    · split <;> simpa [ScanState.advance] using ih _
    · exact ⟨rfl, rfl, rfl⟩

theorem digitsLoopF_fields (f : Nat) : ∀ st : ScanState,
    (digitsLoopF f st).tokens = st.tokens ∧ (digitsLoopF f st).source = st.source ∧
    (digitsLoopF f st).start = st.start ∧ (digitsLoopF f st).line = st.line := by
  induction f with
  | zero => intro st; exact ⟨rfl, rfl, rfl, rfl⟩
  | succ f ih =>
    intro st
    rw [digitsLoopF]
    split
    · simpa [ScanState.advance] using ih st.advance
    · exact ⟨rfl, rfl, rfl, rfl⟩

theorem identLoopF_fields (f : Nat) : ∀ st : ScanState,
    (identLoopF f st).tokens = st.tokens ∧ (identLoopF f st).source = st.source ∧
    (identLoopF f st).start = st.start ∧ (identLoopF f st).line = st.line := by
  induction f with
  | zero => intro st; exact ⟨rfl, rfl, rfl, rfl⟩
  | succ f ih =>
    intro st
    rw [identLoopF]
    split
    · simpa [ScanState.advance] using ih st.advance
    · exact ⟨rfl, rfl, rfl, rfl⟩

theorem matchChar_fields (st : ScanState) (e : Char) :
    (st.matchChar e).2.tokens = st.tokens ∧ (st.matchChar e).2.source = st.source ∧
    (st.matchChar e).2.start = st.start ∧ (st.matchChar e).2.line = st.line := by
  unfold ScanState.matchChar
  split_ifs <;> simp [ScanState.advance]

/-! ## Emission lemmas: every token added by a helper satisfies `TokOk` -/

theorem addToken_spec {st0 st2 : ScanState} (hS : st2.source = st0.source)
    (hT : st2.tokens = st0.tokens) (tt : TokenType) (lit : Option Literal) (hne : tt ≠ .EOF) :
    (st2.addToken tt lit).source = st0.source ∧
    ∃ new, (st2.addToken tt lit).tokens = st0.tokens ++ new ∧ ∀ t ∈ new, TokOk st0.source t := by
  refine ⟨by simpa [ScanState.addToken] using hS,
    [{ type := tt, lexeme := pySlice st2.source st2.start st2.current, literal := lit,
       line := st2.line, colStart := st2.start, colEnd := st2.current }],
    by simp [ScanState.addToken, hT], ?_⟩
  intro t ht
  simp at ht
  subst ht
  exact ⟨by rw [hS], hne⟩

theorem stringFn_ok {q : Char} {st st' : ScanState} (h : stringFn q st = .ok st') :
    st'.source = st.source ∧
    ∃ new, st'.tokens = st.tokens ++ new ∧ ∀ t ∈ new, TokOk st.source t := by
  simp only [stringFn] at h
  split at h
  · simp at h
  · simp only [Except.ok.injEq] at h
    subst h
    obtain ⟨hT, hS, _⟩ := stringLoopF_fields (st.source.length + 1) q st
    exact addToken_spec (by simpa [ScanState.advance] using hS)
      (by simpa [ScanState.advance] using hT) _ _ (by decide)

theorem stringFn_error {q : Char} {st : ScanState} {e : SHLError}
    (h : stringFn q st = .error e) : e.message = "Unterminated string." := by
  simp only [stringFn] at h
  split at h
  · simp only [Except.error.injEq] at h
    subst h
    rfl
  · simp at h

theorem numberFn_spec (st : ScanState) :
    (numberFn st).source = st.source ∧
    ∃ new, (numberFn st).tokens = st.tokens ++ new ∧ ∀ t ∈ new, TokOk st.source t := by
  simp only [numberFn]
  obtain ⟨hT1, hS1, _, _⟩ := digitsLoopF_fields (st.source.length + 1) st
  split
  · obtain ⟨hT2, hS2, _, _⟩ :=
      digitsLoopF_fields ((digitsLoopF (st.source.length + 1) st).source.length + 1)
        (digitsLoopF (st.source.length + 1) st).advance
    refine addToken_spec ?_ ?_ _ _ (by decide)
    · rw [hS2]; simpa [ScanState.advance] using hS1
    · rw [hT2]; simpa [ScanState.advance] using hT1
  · exact addToken_spec hS1 hT1 _ _ (by decide)

theorem identLoop_type_ne_EOF (s : String) :
    (keywordType s).getD TokenType.IDENTIFIER ≠ .EOF := by
  cases hk : keywordType s with
  | none => decide
  | some tt => exact keywordType_ne_EOF hk

theorem identifierFn_spec (st : ScanState) :
    (identifierFn st).source = st.source ∧
    ∃ new, (identifierFn st).tokens = st.tokens ++ new ∧ ∀ t ∈ new, TokOk st.source t := by
  simp only [identifierFn]
  obtain ⟨hT1, hS1, _, _⟩ := identLoopF_fields (st.source.length + 1) st
  exact addToken_spec hS1 hT1 _ _ (identLoop_type_ne_EOF _)

/-! ## One-step lemmas for `scanToken` -/

theorem scanToken_ok_inv {st st' : ScanState} (h : scanToken st = .ok st') :
    st'.source = st.source ∧
    ∃ new, st'.tokens = st.tokens ++ new ∧ ∀ t ∈ new, TokOk st.source t := by
  simp only [scanToken] at h
  split at h
  · -- whitespace
    simp only [Except.ok.injEq] at h
    subst h
    split <;> exact ⟨rfl, [], by simp [ScanState.advance], by simp⟩
  · split at h
    · -- comment
      simp only [Except.ok.injEq] at h
      subst h
      obtain ⟨hT, hS, _, _⟩ := skipCommentF_fields (st.advance.source.length + 1)
        (st.advance.matchChar '/').2
      obtain ⟨hT2, hS2, _, _⟩ := matchChar_fields st.advance '/'
      refine ⟨?_, [], ?_, by simp⟩
      · rw [hS, hS2]; rfl
      · rw [hT, hT2]
        simp [ScanState.advance]
    · split at h
      · -- single-character table hit
        split at h
        · -- lookahead attempted
          split at h
          · -- combined two-character operator
            simp only [Except.ok.injEq] at h
            subst h
            exact addToken_spec (by simp [ScanState.advance])
              (by simp [ScanState.advance]) _ _ (twoCharToken_ne_EOF (by assumption))
          · -- backtrack, emit the single-character token
            simp only [Except.ok.injEq] at h
            subst h
            exact addToken_spec (by simp [ScanState.advance])
              (by simp [ScanState.advance]) _ _ (singleCharToken_ne_EOF (by assumption))
        · -- no lookahead
          simp only [Except.ok.injEq] at h
          subst h
          exact addToken_spec (by simp [ScanState.advance])
            (by simp [ScanState.advance]) _ _ (singleCharToken_ne_EOF (by assumption))
      · -- table miss
        split at h
        · -- string literal
          have := stringFn_ok h
          simpa [ScanState.advance] using this
        · split at h
          · -- number literal
            simp only [Except.ok.injEq] at h
            subst h
            have := numberFn_spec st.advance
            simpa [ScanState.advance] using this
          · split at h
            · -- identifier / keyword
              simp only [Except.ok.injEq] at h
              subst h
              have := identifierFn_spec st.advance
              simpa [ScanState.advance] using this
            · simp at h

theorem scanToken_error_msg {st : ScanState} {e : SHLError} (h : scanToken st = .error e) :
    e.message = "Unterminated string." ∨
    ∃ c, e.message = "Unexpected character: '" ++ String.singleton c ++ "'" := by
  simp only [scanToken] at h
  split at h
  · simp at h
  · split at h
    · simp at h
    · split at h
      · split at h
        · split at h <;> simp at h
        · simp at h
      · split at h
        · exact Or.inl (stringFn_error h)
        · split at h
          · simp at h
          · split at h
            · simp at h
            · simp only [Except.error.injEq] at h
              subst h
              exact Or.inr ⟨st.peek, rfl⟩

/-! ## Loop-level invariant lemmas -/

theorem scanLoopF_ok_inv : ∀ (f : Nat) {st st' : ScanState}, scanLoopF f st = .ok st' →
    st'.source = st.source ∧
    ∃ new, st'.tokens = st.tokens ++ new ∧ ∀ t ∈ new, TokOk st.source t := by
  intro f
  induction f with
  | zero =>
    intro st st' h
    simp only [scanLoopF, Except.ok.injEq] at h
    subst h
    exact ⟨rfl, [], by simp, by simp⟩
  | succ f ih =>
    intro st st' h
    rw [scanLoopF] at h
    split at h
    · simp only [Except.ok.injEq] at h
      subst h
      exact ⟨rfl, [], by simp, by simp⟩
    · split at h
      · simp at h
      · rename_i st2 heq
        obtain ⟨hS1, new1, hT1, hOk1⟩ := scanToken_ok_inv heq
        obtain ⟨hS2, new2, hT2, hOk2⟩ := ih h
        refine ⟨by rw [hS2, hS1], new1 ++ new2, ?_, ?_⟩
        · rw [hT2, hT1]; simp
        · intro t ht
          rcases List.mem_append.mp ht with h1 | h2
          · exact hOk1 t h1
          · have := hOk2 t h2
            rwa [hS1] at this

theorem scanLoopF_error_msg : ∀ (f : Nat) {st : ScanState} {e : SHLError},
    scanLoopF f st = .error e →
    e.message = "Unterminated string." ∨
    ∃ c, e.message = "Unexpected character: '" ++ String.singleton c ++ "'" := by
  intro f
  induction f with
  | zero => intro st e h; simp [scanLoopF] at h
  | succ f ih =>
    intro st e h
    rw [scanLoopF] at h
    split at h
    · simp at h
    · split at h
      · rename_i e2 heq
        simp only [Except.error.injEq] at h
        subst h
        exact scanToken_error_msg heq
      · exact ih h

theorem scanLoopF_step {f : Nat} (hf : 0 < f) (st : ScanState) :
    scanLoopF f st = if st.isAtEnd then .ok st else
      match scanToken { st with start := st.current } with
      | .error e => .error e
      | .ok st2 => scanLoopF (f - 1) st2 := by
  cases f with
  | zero => omega
  | succ f => rw [scanLoopF]; rfl

/-! ## Exact consumption lemmas for the inner loops -/

theorem getD_default_of_le {l : List Char} {n : Nat} (d : Char) (h : l.length ≤ n) :
    l.getD n d = d := by
  induction l generalizing n with
  | nil => simp
  | cons a t ih =>
    cases n with
    | zero => simp at h
    | succ n => simpa using ih (by simpa using h)

theorem peek_default_of_atEnd {st : ScanState} (h : st.source.drop st.current = []) :
    st.peek = '\x00' :=
  getD_default_of_le _ (le_length_of_drop_nil h)

theorem digitsLoopF_consume : ∀ (ds : List Char) {rest : List Char} (st : ScanState) (f : Nat),
    (∀ c ∈ ds, pyIsDigit c = true) → st.source.drop st.current = ds ++ rest →
    (∀ d, rest.head? = some d → pyIsDigit d = false) → ds.length < f →
    digitsLoopF f st =
      { st with current := st.current + ds.length, column := st.column + ds.length } := by
  intro ds
  induction ds with
  | nil =>
    intro rest st f _ hdrop hrest hf
    cases f with
    | zero => omega
    | succ f =>
      rw [digitsLoopF]
      have hpeek : pyIsDigit st.peek = false := by
        cases rest with
        | nil => rw [peek_default_of_atEnd (by simpa using hdrop)]; decide
        | cons d r =>
          rw [ScanState.peek_of_drop (by simpa using hdrop)]
          exact hrest d rfl
      rw [hpeek]
      cases st
      simp
  | cons d ds ih =>
    intro rest st f hds hdrop hrest hf
    cases f with
    | zero => omega
    | succ f =>
      rw [digitsLoopF]
      rw [List.cons_append] at hdrop
      have hlen : ds.length < f := by simp at hf; omega
      have hpeek := ScanState.peek_of_drop hdrop
      rw [hpeek, hds d (by simp)]
      have hdrop2 : st.advance.source.drop st.advance.current = ds ++ rest :=
        ScanState.advance_drop hdrop
      rw [if_pos rfl, ih st.advance f (fun c hc => hds c (by simp [hc])) hdrop2 hrest hlen]
      cases st
      simp [ScanState.advance]
      omega

theorem skipCommentF_consume : ∀ (body : List Char) {rest : List Char} (st : ScanState) (f : Nat),
    (∀ x ∈ body, x ≠ '\n') → st.source.drop st.current = body ++ rest →
    (rest = [] ∨ rest.head? = some '\n') → body.length < f →
    skipCommentF f st =
      { st with current := st.current + body.length, column := st.column + body.length } := by
  intro body
  induction body with
  | nil =>
    intro rest st f _ hdrop hrest hf
    cases f with
    | zero => omega
    | succ f =>
      rw [skipCommentF]
      have hcond : (st.peek != '\n' && !st.isAtEnd) = false := by
        rcases hrest with rfl | hhd
        · rw [ScanState.isAtEnd_true_of_drop (by simpa using hdrop)]
          simp
        · cases rest with
          | nil => simp at hhd
          | cons d r =>
            simp only [List.head?_cons, Option.some.injEq] at hhd
            subst hhd
            rw [ScanState.peek_of_drop (by simpa using hdrop)]
            simp
      rw [hcond]
      cases st
      simp
  | cons b body ih =>
    intro rest st f hbody hdrop hrest hf
    cases f with
    | zero => omega
    | succ f =>
      rw [skipCommentF]
      rw [List.cons_append] at hdrop
      have hlen : body.length < f := by simp at hf; omega
      have hpeek := ScanState.peek_of_drop hdrop
      have hcond : (st.peek != '\n' && !st.isAtEnd) = true := by
        rw [hpeek, ScanState.isAtEnd_false_of_drop hdrop]
        simp
        exact hbody b (by simp)
      rw [hcond]
      have hdrop2 : st.advance.source.drop st.advance.current = body ++ rest :=
        ScanState.advance_drop hdrop
      rw [if_pos rfl, ih st.advance f (fun c hc => hbody c (by simp [hc])) hdrop2 hrest hlen]
      cases st
      simp [ScanState.advance]
      omega

theorem stringLoopF_consume (q : Char) : ∀ (body : List Char) {tail : List Char}
    (st : ScanState) (f : Nat), q ∉ body →
    st.source.drop st.current = body ++ q :: tail → body.length < f →
    ∃ col, stringLoopF f q st =
      { st with current := st.current + body.length,
                line := st.line + body.count '\n', column := col } := by
  intro body
  induction body with
  | nil =>
    intro tail st f _ hdrop hf
    cases f with
    | zero => omega
    | succ f =>
      rw [stringLoopF]
      have hpeek := ScanState.peek_of_drop (by simpa using hdrop)
      have hcond : (st.peek != q && !st.isAtEnd) = false := by
        rw [hpeek]; simp
      rw [hcond]
      refine ⟨st.column, ?_⟩
      cases st
      simp
  | cons b body ih =>
    intro tail st f hq hdrop hf
    cases f with
    | zero => omega
    | succ f =>
      rw [stringLoopF]
      rw [List.cons_append] at hdrop
      have hlen : body.length < f := by simp at hf; omega
      have hpeek := ScanState.peek_of_drop hdrop
      have hbq : b ≠ q := by
        intro hbq
        exact hq (by simp [hbq.symm])
      have hcond : (st.peek != q && !st.isAtEnd) = true := by
        rw [hpeek, ScanState.isAtEnd_false_of_drop hdrop]
        simp [hbq]
      rw [hcond, if_pos rfl]
      by_cases hb : b = '\n'
      · subst hb
        rw [hpeek, if_pos (show (('\n' == '\n') = true) from rfl)]
        have hdrop2 : (ScanState.advance { st with line := st.line + 1, column := 1
            }).source.drop (ScanState.advance { st with line := st.line + 1, column := 1
            }).current = body ++ q :: tail := by
          simpa [ScanState.advance] using drop_succ_eq _ _ hdrop
        obtain ⟨col, hcol⟩ := ih (ScanState.advance { st with line := st.line + 1, column := 1 })
          f (fun hc => hq (by simp [hc])) hdrop2 hlen
        refine ⟨col, ?_⟩
        rw [hcol]
        cases st
        simp [ScanState.advance, List.count_cons]
        omega
      · rw [hpeek, if_neg (by simpa using hb)]
        have hdrop2 : st.advance.source.drop st.advance.current = body ++ q :: tail :=
          ScanState.advance_drop hdrop
        obtain ⟨col, hcol⟩ := ih st.advance f (fun hc => hq (by simp [hc])) hdrop2 hlen
        refine ⟨col, ?_⟩
        rw [hcol]
        cases st
        simp [ScanState.advance, List.count_cons, hb]
        omega

theorem stringLoopF_toEnd (q : Char) : ∀ (body : List Char) (st : ScanState) (f : Nat),
    q ∉ body → st.source.drop st.current = body → body.length < f →
    ∃ col, stringLoopF f q st =
      { st with current := st.current + body.length,
                line := st.line + body.count '\n', column := col } := by
  intro body
  induction body with
  | nil =>
    intro st f _ hdrop hf
    cases f with
    | zero => omega
    | succ f =>
      rw [stringLoopF]
      have hcond : (st.peek != q && !st.isAtEnd) = false := by
        rw [ScanState.isAtEnd_true_of_drop hdrop]
        simp
      rw [hcond]
      refine ⟨st.column, ?_⟩
      cases st
      simp
  | cons b body ih =>
    intro st f hq hdrop hf
    cases f with
    | zero => omega
    | succ f =>
      rw [stringLoopF]
      have hlen : body.length < f := by simp at hf; omega
      have hpeek := ScanState.peek_of_drop hdrop
      have hbq : b ≠ q := by
        intro hbq
        exact hq (by simp [hbq.symm])
      have hcond : (st.peek != q && !st.isAtEnd) = true := by
        rw [hpeek, ScanState.isAtEnd_false_of_drop hdrop]
        simp [hbq]
      rw [hcond, if_pos rfl]
      by_cases hb : b = '\n'
      · subst hb
        rw [hpeek, if_pos (show (('\n' == '\n') = true) from rfl)]
        have hdrop2 : (ScanState.advance { st with line := st.line + 1, column := 1
            }).source.drop (ScanState.advance { st with line := st.line + 1, column := 1
            }).current = body := by
          simpa [ScanState.advance] using drop_succ_eq _ _ hdrop
        obtain ⟨col, hcol⟩ := ih (ScanState.advance { st with line := st.line + 1, column := 1 })
          f (fun hc => hq (by simp [hc])) hdrop2 hlen
        refine ⟨col, ?_⟩
        rw [hcol]
        cases st
        simp [ScanState.advance, List.count_cons]
        omega
      · rw [hpeek, if_neg (by simpa using hb)]
        have hdrop2 : st.advance.source.drop st.advance.current = body :=
          ScanState.advance_drop hdrop
        obtain ⟨col, hcol⟩ := ih st.advance f (fun hc => hq (by simp [hc])) hdrop2 hlen
        refine ⟨col, ?_⟩
        rw [hcol]
        cases st
        simp [ScanState.advance, List.count_cons, hb]
        omega

/-! ## Branch lemmas for `scanToken` -/

theorem matchChar_true {st : ScanState} {e : Char} {r : List Char}
    (h : st.source.drop st.current = e :: r) : st.matchChar e = (true, st.advance) := by
  have h1 : st.isAtEnd = false := ScanState.isAtEnd_false_of_drop h
  have h2 : st.source.getD st.current '\x00' = e := getD_of_drop _ _ '\x00' h
  unfold ScanState.matchChar
  rw [h1, h2]
  simp

theorem singleCharTokenDomain {c : Char} {tt : TokenType} (h : singleCharToken c = some tt) :
    c.toNat ∈ ([40, 41, 123, 125, 91, 93, 44, 46, 45, 43, 59, 47, 42, 58, 61, 62, 60, 33] : List Nat) := by
  unfold singleCharToken at h
  split at h
  all_goals simp_all

theorem digit_class {c : Char} (h : pyIsDigit c = true) :
    pyIsSpace c = false ∧ (c == '/') = false ∧ singleCharToken c = none ∧
    ((c == '"' || c == '\'') = false) := by
  simp only [pyIsDigit, decide_eq_true_eq] at h
  refine ⟨?_, ?_, ?_, ?_⟩
  · simp only [pyIsSpace, decide_eq_false_iff_not]
    intro hmem
    simp at hmem
    omega
  · simp only [beq_eq_false_iff_ne, ne_eq]
    intro hc
    subst hc
    exact absurd h (by decide)
  · cases hsc : singleCharToken c with
    | none => rfl
    | some tt =>
      have := singleCharTokenDomain hsc
      simp at this
      omega
  · simp only [Bool.or_eq_false_iff, beq_eq_false_iff_ne, ne_eq]
    constructor <;> intro hc <;> subst hc <;> exact absurd h (by decide)

theorem scanToken_space {st : ScanState} (h : pyIsSpace st.peek = true) :
    scanToken st = .ok (if st.peek == '\n' then
      { st.advance with line := st.advance.line + 1, column := 1 } else st.advance) := by
  simp only [scanToken]
  rw [if_pos h]

theorem scanToken_comment {st : ScanState} {r : List Char}
    (hp : st.peek = '/') (hm : st.advance.source.drop st.advance.current = '/' :: r) :
    scanToken st = .ok (skipCommentF (st.advance.source.length + 1) st.advance.advance) := by
  have h2 := matchChar_true hm
  simp [scanToken, hp, h2, show pyIsSpace '/' = false from by decide]

theorem scanToken_single {st : ScanState} {tt : TokenType}
    (h1 : pyIsSpace st.peek = false)
    (h2 : (st.peek == '/' && (st.advance.matchChar '/').1) = false)
    (h3 : singleCharToken st.peek = some tt)
    (h4 : ((st.peek == '!' || st.peek == '=' || st.peek == '>' || st.peek == '<') &&
           (st.advance.peek == '=' || st.advance.peek == '>')) = false) :
    scanToken st = .ok (st.advance.addToken tt none) := by
  simp [scanToken, h1, h2, h3, h4]

theorem scanToken_twoChar {st : ScanState} {tt tt2 : TokenType}
    (h1 : pyIsSpace st.peek = false)
    (h2 : (st.peek == '/' && (st.advance.matchChar '/').1) = false)
    (h3 : singleCharToken st.peek = some tt)
    (h4 : ((st.peek == '!' || st.peek == '=' || st.peek == '>' || st.peek == '<') &&
           (st.advance.peek == '=' || st.advance.peek == '>')) = true)
    (h5 : twoCharToken st.peek st.advance.peek = some tt2) :
    scanToken st = .ok (st.advance.advance.addToken tt2 none) := by
  simp [scanToken, h1, h2, h3, h4, h5]

theorem scanToken_backtrack {st : ScanState} {tt : TokenType}
    (h1 : pyIsSpace st.peek = false)
    (h2 : (st.peek == '/' && (st.advance.matchChar '/').1) = false)
    (h3 : singleCharToken st.peek = some tt)
    (h4 : ((st.peek == '!' || st.peek == '=' || st.peek == '>' || st.peek == '<') &&
           (st.advance.peek == '=' || st.advance.peek == '>')) = true)
    (h5 : twoCharToken st.peek st.advance.peek = none) :
    scanToken st = .ok (st.advance.addToken tt none) := by
  have key :
      ({ st.advance.advance with
          current := st.advance.advance.current - 1,
          column := st.advance.advance.column - 1 } : ScanState) = st.advance := by
    cases st; simp [ScanState.advance]
  simp [scanToken, h1, h2, h3, h4, h5, key]

theorem scanToken_quote {st : ScanState}
    (h1 : pyIsSpace st.peek = false)
    (h3 : singleCharToken st.peek = none)
    (hq : (st.peek == '"' || st.peek == '\'') = true) :
    scanToken st = stringFn st.peek st.advance := by
  have h2 : (st.peek == '/') = false := by
    simp only [beq_eq_false_iff_ne, ne_eq]
    exact singleCharToken_ne_slash h3
  simp [scanToken, h1, h2, h3, hq]

theorem scanToken_digit {st : ScanState} (hd : pyIsDigit st.peek = true) :
    scanToken st = .ok (numberFn st.advance) := by
  obtain ⟨h1, h2, h3, h4⟩ := digit_class hd
  simp [scanToken, h1, h2, h3, h4, hd]

theorem drop_add_of_drop : ∀ {l : List Char} {r1 r2 : List Char} {n : Nat},
    l.drop n = r1 ++ r2 → l.drop (n + r1.length) = r2 := by
  intro l r1
  induction r1 with
  | nil => intro r2 n h; simpa using h
  | cons a t ih =>
    intro r2 n h
    have h1 : l.drop n = a :: (t ++ r2) := by simpa using h
    have h2 := drop_succ_eq _ _ h1
    have h3 := ih h2
    have harith : n + (a :: t).length = n + 1 + t.length := by simp; omega
    rw [harith]
    exact h3

theorem unterminated_ne_unexpected (c : Char) :
    "Unterminated string." ≠ "Unexpected character: '" ++ String.singleton c ++ "'" := by
  intro h
  have hlen := congrArg String.length h
  rw [String.length_append, String.length_append] at hlen
  rw [show ("Unterminated string.").length = 20 from by decide,
      show ("Unexpected character: '").length = 23 from by decide,
      show ("'" : String).length = 1 from by decide] at hlen
  have hsing : (String.singleton c).length = 1 := rfl
  omega

theorem truthyNat_gt (o : Option Nat) (c : Nat) :
    ((truthyNat o = true ∧ o.getD 0 > c) ↔ o.getD 0 > c) := by
  cases o <;> simp [truthyNat] <;> omega

theorem scanLoopF_ws : ∀ {rest : List Char}, WsComments rest → ∀ (st : ScanState) (f : Nat),
    st.source.drop st.current = rest → rest.length < f →
    ∃ st2, scanLoopF f st = .ok st2 ∧ st2.tokens = st.tokens ∧ st2.source = st.source := by
  intro rest hws
  induction hws with
  | nil =>
    intro st f hdrop hf
    refine ⟨st, ?_, rfl, rfl⟩
    rw [scanLoopF_step (by omega), if_pos (ScanState.isAtEnd_true_of_drop hdrop)]
  | ws hsp hrest ih =>
    rename_i c rest'
    intro st f hdrop hf
    have hlen : rest'.length < f - 1 := by simp at hf; omega
    have hAtEnd : st.isAtEnd = false := ScanState.isAtEnd_false_of_drop hdrop
    have hdrop' : ({ st with start := st.current } : ScanState).source.drop
        ({ st with start := st.current } : ScanState).current = c :: rest' := hdrop
    have hpeek : ({ st with start := st.current } : ScanState).peek = c :=
      ScanState.peek_of_drop hdrop'
    have hstep := @scanToken_space { st with start := st.current }
      (by rw [hpeek]; exact hsp)
    by_cases hnl : ((({ st with start := st.current } : ScanState).peek == '\n') = true)
    · rw [if_pos hnl] at hstep
      have hdropN : (({ st with start := st.current } : ScanState).advance.source.drop
          ({ st with start := st.current } : ScanState).advance.current) = rest' :=
        ScanState.advance_drop hdrop'
      obtain ⟨st2, hrun, hT, hS⟩ :=
        ih { ({ st with start := st.current } : ScanState).advance with
              line := ({ st with start := st.current } : ScanState).advance.line + 1,
              column := 1 } (f - 1) hdropN hlen
      refine ⟨st2, ?_, ?_, ?_⟩
      · rw [scanLoopF_step (by omega), if_neg (by rw [hAtEnd]; simp), hstep]
        exact hrun
      · rw [hT]; simp [ScanState.advance]
      · rw [hS]; simp [ScanState.advance]
    · rw [if_neg hnl] at hstep
      have hdropN : (({ st with start := st.current } : ScanState).advance.source.drop
          ({ st with start := st.current } : ScanState).advance.current) = rest' :=
        ScanState.advance_drop hdrop'
      obtain ⟨st2, hrun, hT, hS⟩ :=
        ih ({ st with start := st.current } : ScanState).advance (f - 1) hdropN hlen
      refine ⟨st2, ?_, ?_, ?_⟩
      · rw [scanLoopF_step (by omega), if_neg (by rw [hAtEnd]; simp), hstep]
        exact hrun
      · rw [hT]; simp [ScanState.advance]
      · rw [hS]; simp [ScanState.advance]
  | comment hbody hhead hrest' ih =>
    rename_i body rest'
    intro st f hdrop hf
    have hlen : rest'.length < f - 1 := by simp at hf; omega
    have hAtEnd : st.isAtEnd = false := ScanState.isAtEnd_false_of_drop hdrop
    have hdrop0 : ({ st with start := st.current } : ScanState).source.drop
        ({ st with start := st.current } : ScanState).current
        = '/' :: ('/' :: (body ++ rest')) := hdrop
    have hpeek : ({ st with start := st.current } : ScanState).peek = '/' :=
      ScanState.peek_of_drop hdrop0
    have hdrop1 : (({ st with start := st.current } : ScanState).advance.source.drop
        ({ st with start := st.current } : ScanState).advance.current) = '/' :: (body ++ rest') :=
      ScanState.advance_drop hdrop0
    have hstep := scanToken_comment hpeek hdrop1
    have hdrop2 : (({ st with start := st.current } : ScanState).advance.advance.source.drop
        ({ st with start := st.current } : ScanState).advance.advance.current) = body ++ rest' :=
      ScanState.advance_drop hdrop1
    have hbl : body.length <
        ({ st with start := st.current } : ScanState).advance.source.length + 1 := by
      have hc := congrArg List.length hdrop2
      rw [List.length_drop, List.length_append] at hc
      simp [ScanState.advance] at hc ⊢
      omega
    have hskip := skipCommentF_consume body
      ({ st with start := st.current } : ScanState).advance.advance
      (({ st with start := st.current } : ScanState).advance.source.length + 1)
      hbody hdrop2 hhead hbl
    have hdropC : (({ ({ st with start := st.current } : ScanState).advance.advance with
        current := ({ st with start := st.current } : ScanState).advance.advance.current
          + body.length,
        column := ({ st with start := st.current } : ScanState).advance.advance.column
          + body.length } : ScanState).source.drop
        ({ ({ st with start := st.current } : ScanState).advance.advance with
        current := ({ st with start := st.current } : ScanState).advance.advance.current
          + body.length,
        column := ({ st with start := st.current } : ScanState).advance.advance.column
          + body.length } : ScanState).current) = rest' := by
      exact drop_add_of_drop hdrop2
    obtain ⟨st2, hrun, hT, hS⟩ := ih _ (f - 1) hdropC hlen
    refine ⟨st2, ?_, ?_, ?_⟩
    · rw [scanLoopF_step (by omega), if_neg (by rw [hAtEnd]; simp), hstep, hskip]
      exact hrun
    · rw [hT]; simp [ScanState.advance]
    · rw [hS]; simp [ScanState.advance]

theorem scanTokensL_eq (src : List Char) :
    scanTokensL src = match scanLoopF (src.length + 1) ⟨[], src, 0, 0, 1, 1⟩ with
      | .error e => .error e
      | .ok st2 => .ok (st2.tokens ++
          [{ type := .EOF, lexeme := [], literal := none, line := st2.line,
             colStart := st2.column, colEnd := st2.column }]) := rfl

theorem scanLoopF_step_end (f : Nat) (hf : 0 < f) {st : ScanState} (hA : st.isAtEnd = true) :
    scanLoopF f st = .ok st := by
  cases f with
  | zero => omega
  | succ f => rw [scanLoopF, if_pos hA]

theorem scanLoopF_step_ok (f : Nat) (hf : 0 < f) {st st2 : ScanState}
    (hA : st.isAtEnd = false) (h : scanToken { st with start := st.current } = .ok st2) :
    scanLoopF f st = scanLoopF (f - 1) st2 := by
  cases f with
  | zero => omega
  | succ f =>
    rw [scanLoopF, if_neg (by rw [hA]; simp), h]
    rfl

theorem scanLoopF_step_err (f : Nat) (hf : 0 < f) {st : ScanState} {e : SHLError}
    (hA : st.isAtEnd = false) (h : scanToken { st with start := st.current } = .error e) :
    scanLoopF f st = .error e := by
  cases f with
  | zero => omega
  | succ f =>
    rw [scanLoopF, if_neg (by rw [hA]; simp), h]

theorem digit_ne_dot {c : Char} (h : pyIsDigit c = true) : (c != '.') = true := by
  simp only [bne_iff_ne, ne_eq]
  intro hc
  subst hc
  exact absurd h (by decide)

theorem takeWhile_all_digits : ∀ (ds : List Char), (∀ c ∈ ds, pyIsDigit c = true) →
    (ds.takeWhile (fun c => c != '.') = ds ∧ ds.dropWhile (fun c => c != '.') = []) := by
  intro ds
  induction ds with
  | nil => intro _; exact ⟨rfl, rfl⟩
  | cons a t ih =>
    intro h
    obtain ⟨h1, h2⟩ := ih (fun c hc => h c (by simp [hc]))
    have ha := digit_ne_dot (h a (by simp))
    constructor
    · simp [List.takeWhile_cons, ha, h1]
    · simp [List.dropWhile_cons, ha, h2]

theorem takeWhile_dot : ∀ (ds1 : List Char) (r : List Char), (∀ c ∈ ds1, pyIsDigit c = true) →
    ((ds1 ++ '.' :: r).takeWhile (fun c => c != '.') = ds1 ∧
     (ds1 ++ '.' :: r).dropWhile (fun c => c != '.') = '.' :: r) := by
  intro ds1
  induction ds1 with
  | nil =>
    intro r _
    constructor <;> simp [List.takeWhile_cons, List.dropWhile_cons]
  | cons a t ih =>
    intro r h
    obtain ⟨h1, h2⟩ := ih r (fun c hc => h c (by simp [hc]))
    have ha := digit_ne_dot (h a (by simp))
    constructor
    · simp [List.takeWhile_cons, ha, h1]
    · simp [List.dropWhile_cons, ha, h2]

theorem pyFloat_digits {ds : List Char} (hds : ∀ c ∈ ds, pyIsDigit c = true) :
    pyFloat ds = digitsVal ds := by
  obtain ⟨h1, h2⟩ := takeWhile_all_digits ds hds
  simp only [pyFloat, h1, h2]
  rfl

theorem pyFloat_frac {ds1 ds2 : List Char} (h1 : ∀ c ∈ ds1, pyIsDigit c = true) :
    pyFloat (ds1 ++ '.' :: ds2) =
      mkRat (digitsToNat ds1 * 10 ^ ds2.length + digitsToNat ds2) (10 ^ ds2.length) := by
  obtain ⟨ht, hd⟩ := takeWhile_dot ds1 ds2 h1
  simp only [pyFloat, ht, hd]

theorem numberFn_run_nodot {st : ScanState} {ds2 rest : List Char}
    (hds : ∀ c ∈ ds2, pyIsDigit c = true)
    (hdrop : st.source.drop st.current = ds2 ++ rest)
    (hstop : ∀ r, rest.head? = some r → pyIsDigit r = false)
    (hdot : rest.head? = some '.' →
      pyIsDigit (st.source.getD (st.current + ds2.length + 1) '\x00') = false) :
    numberFn st = ScanState.addToken
      { st with current := st.current + ds2.length, column := st.column + ds2.length }
      .NUMBER (some (.num (pyFloat (pySlice st.source st.start (st.current + ds2.length))))) := by
  have hlen : ds2.length < st.source.length + 1 := by
    have hc := congrArg List.length hdrop
    rw [List.length_drop, List.length_append] at hc
    omega
  have hloop := digitsLoopF_consume ds2 st (st.source.length + 1) hds hdrop hstop hlen
  simp only [numberFn]
  rw [hloop]
  have hcond : (({ st with current := st.current + ds2.length, column := st.column + ds2.length } : ScanState).peek == '.' &&
      pyIsDigit ({ st with current := st.current + ds2.length, column := st.column + ds2.length } : ScanState).peekNext) = false := by
    have hdropR : st.source.drop (st.current + ds2.length) = rest := drop_add_of_drop hdrop
    cases rest with
    | nil =>
      have : ({ st with current := st.current + ds2.length, column := st.column + ds2.length } : ScanState).peek = '\x00' :=
        peek_default_of_atEnd (by simpa using hdropR)
      rw [this]
      simp
    | cons r rest2 =>
      have hpk : ({ st with current := st.current + ds2.length, column := st.column + ds2.length } : ScanState).peek = r :=
        ScanState.peek_of_drop (by simpa using hdropR)
      rw [hpk]
      by_cases hr : r = '.'
      · subst hr
        have hthis := hdot rfl
        simp only [ScanState.peekNext]
        simp only [List.getD]
        simpa using hthis
      · simp [hr]
  rw [hcond]
  rfl

theorem numberFn_run_dot {st : ScanState} {ds1t ds2 : List Char} {d2 : Char}
    (h1 : ∀ c ∈ ds1t, pyIsDigit c = true)
    (h2 : ∀ c ∈ d2 :: ds2, pyIsDigit c = true)
    (hdrop : st.source.drop st.current = ds1t ++ '.' :: d2 :: ds2) :
    numberFn st = ScanState.addToken
      { st with current := st.current + ds1t.length + 1 + (ds2.length + 1), column := st.column + ds1t.length + 1 + (ds2.length + 1) }
      .NUMBER (some (.num (pyFloat (pySlice st.source st.start
        (st.current + ds1t.length + 1 + (ds2.length + 1)))))) := by
  have hlen : ds1t.length < st.source.length + 1 := by
    have hc := congrArg List.length hdrop
    rw [List.length_drop, List.length_append] at hc
    omega
  have hloop := digitsLoopF_consume ds1t st (st.source.length + 1) h1 hdrop
    (by intro r hr; simp at hr; subst hr; decide) hlen
  simp only [numberFn]
  rw [hloop]
  have hdropR : st.source.drop (st.current + ds1t.length) = '.' :: d2 :: ds2 :=
    drop_add_of_drop hdrop
  have hpk : ({ st with current := st.current + ds1t.length, column := st.column + ds1t.length } : ScanState).peek = '.' :=
    ScanState.peek_of_drop (by simpa using hdropR)
  have hdropR2 : st.source.drop (st.current + ds1t.length + 1) = d2 :: ds2 :=
    drop_succ_eq _ _ hdropR
  have hpn : ({ st with current := st.current + ds1t.length, column := st.column + ds1t.length } : ScanState).peekNext = d2 := by
    simp only [ScanState.peekNext]
    exact getD_of_drop _ _ '\x00' (by simpa using hdropR2)
  have hcond : (({ st with current := st.current + ds1t.length, column := st.column + ds1t.length } : ScanState).peek == '.' &&
      pyIsDigit ({ st with current := st.current + ds1t.length, column := st.column + ds1t.length } : ScanState).peekNext) = true := by
    rw [hpk, hpn, h2 d2 (by simp)]
    rfl
  rw [hcond]
  have hdrop3 : (({ st with current := st.current + ds1t.length, column := st.column + ds1t.length } : ScanState).advance.source.drop
      ({ st with current := st.current + ds1t.length, column := st.column + ds1t.length } : ScanState).advance.current)
      = (d2 :: ds2) ++ [] := by
    simpa [ScanState.advance] using hdropR2
  have hlen2 : (d2 :: ds2).length < ({ st with current := st.current + ds1t.length, column := st.column + ds1t.length } : ScanState).source.length + 1 := by
    have hc := congrArg List.length hdropR2
    rw [List.length_drop] at hc
    simp at hc ⊢
    omega
  have hloop2 := digitsLoopF_consume (d2 :: ds2)
    ({ st with current := st.current + ds1t.length, column := st.column + ds1t.length } : ScanState).advance
    (({ st with current := st.current + ds1t.length, column := st.column + ds1t.length } : ScanState).source.length + 1)
    h2 hdrop3 (by intro r hr; simp at hr) hlen2
  rw [if_pos rfl, hloop2]
  simp [ScanState.advance, ScanState.addToken]

/-! ## Claim theorems -/

/-- Claim C9: for every pair of sources, scanning the second on a scanner left in
any state (including the state left by an earlier successful or failed scan)
gives exactly the same result as scanning it on a fresh scanner: `scan_tokens`
overwrites every mutable field before scanning, so the result depends only on
the source argument. -/
theorem C9_scan_reset_independent :
    (∀ (stA stB : ScanState) (src : List Char), scanTokensFrom stA src = scanTokensFrom stB src) ∧
    (∀ (st : ScanState) (src : String), scanTokensFrom st src.data = scanTokens src) :=
  ⟨fun _ _ _ => rfl, fun _ _ => rfl⟩

/-- Counterexample to claim C5 as stated: scanning `"@"` does raise the expected
error at line 1, column 1, but its rendered form is just
`"Error: Unexpected character: '@'"` — it contains no caret at all, because the
scanner never attaches `src_line` and `__str__` draws the caret only under a
`line`-and-`src_line` guard. -/
theorem C5_counterexample :
    scanTokens "@" =
      .error (SHLError.make "Unexpected character: '@'" none (some 1) (some 1) none none) ∧
    (SHLError.make "Unexpected character: '@'" none (some 1) (some 1) none none).render
      = "Error: Unexpected character: '@'" ∧
    '^' ∉ (SHLError.make "Unexpected character: '@'" none (some 1) (some 1)
      none none).render.data :=
  ⟨rfl, by decide, by decide⟩

/-- Claim C5 (amended): scanning the one-character input `"@"` raises a ScanError
at line 1 whose `col_start` is 1 — the column of the offending character, not the
post-advance column — and whose rendered form contains
`"Unexpected character: '@'"`; no caret line is rendered, since the scanner does
not attach a source line to the error. -/
theorem C5_unexpected_char_report :
    scanTokens "@" =
      .error (SHLError.make "Unexpected character: '@'" none (some 1) (some 1) none none) ∧
    (SHLError.make "Unexpected character: '@'" none (some 1) (some 1) none none).line = 1 ∧
    (SHLError.make "Unexpected character: '@'" none (some 1) (some 1) none none).colStart = 1 ∧
    "Unexpected character: '@'".data <:+:
      (SHLError.make "Unexpected character: '@'" none (some 1) (some 1) none none).render.data ∧
    '^' ∉ (SHLError.make "Unexpected character: '@'" none (some 1) (some 1)
      none none).render.data :=
  ⟨rfl, rfl, rfl, by decide, by decide⟩

/-- Counterexample to claim C6 as stated: a present file name does not prefix the
rendering with `"{file}: "` — the code appends a second line that repeats the
header (`result += f"\n{file}: {result}"`); and the caret line ends in
`"-- Here."` with no space before the dashes, not `" -- Here."`. -/
theorem C6_counterexample :
    (SHLError.make "m" (some "f") none none none none).render = "Error: m\nf: Error: m" ∧
    (SHLError.make "m" (some "f") none none none none).render ≠ "f: Error: m" ∧
    (SHLError.make "m" none (some 1) (some 2) (some 5) (some "code")).render
      = "Error: m\n1 | code\n      ^~~-- Here." ∧
    (SHLError.make "m" none (some 1) (some 2) (some 5) (some "code")).render
      ≠ "Error: m\n1 | code\n      ^~~ -- Here." := by
  refine ⟨by decide, by decide, by decide, by decide⟩

/-- Claim C6 (amended): the rendered form always starts with `"Error: {message}"`;
a truthy file name appends a line `"{file}: Error: {message}"` (rather than
prefixing); when `line` is nonzero and `src_line` is a non-empty string the line
`"{line} | {src_line}"` is appended, and when additionally `col_start` is
nonzero a caret line is appended consisting of `col_start` spaces plus the width
of the `"{line} | "` prefix, then `"^"`, then `col_end - col_start - 1` repeated
`"~"` when `col_end` is set and exceeds `col_start`, then `"-- Here."` with no
leading space; `col_end` defaults to the `col_start` argument when omitted at
construction. -/
theorem C6_render_spec :
    (∀ e : SHLError, e.render = renderSpec e.message e.file e.line e.colStart e.colEnd e.srcLine) ∧
    (∀ (m : String) (file : Option String) (line colStart : Option Nat) (srcLine : Option String),
      (SHLError.make m file line colStart none srcLine).colEnd = colStart) := by
  constructor
  · intro e
    simp only [SHLError.render, renderSpec]
    rw [if_congr (truthyNat_gt e.colEnd e.colStart) rfl rfl]
    by_cases hf : truthyStr e.file = true <;>
    by_cases hl : e.line = 0 <;>
    by_cases hs : truthyStr e.srcLine = true <;>
    by_cases hc : e.colStart = 0 <;>
    by_cases hg : e.colEnd.getD 0 > e.colStart <;>
    simp [hf, hl, hs, hc, hg, String.append_assoc]
  · intro m file line colStart srcLine
    rfl

/-- Claim C2: a successful scan returns the loop's token list followed by one
final EOF token whose `col_start` and `col_end` fields BOTH hold the scanner's
final column counter (`st2.column`, not a source offset); every loop-emitted
token is a non-EOF token satisfying the round-trip
`source[col_start:col_end] = lexeme` — its `col_start`/`col_end` are the byte
offsets `start`/`current` at the moment of emission, which is exactly what
`add_token` stores. -/
theorem C2_token_slice_roundtrip (src : List Char) (ts : List Token)
    (h : scanTokensL src = .ok ts) :
    ∃ st2, scanLoopF (src.length + 1) (resetState initialScanner src) = .ok st2 ∧
      ts = st2.tokens ++ [⟨.EOF, [], none, st2.line, st2.column, st2.column⟩] ∧
      ∀ u ∈ st2.tokens, pySlice src u.colStart u.colEnd = u.lexeme ∧ u.type ≠ .EOF := by
  unfold scanTokensL scanTokensFrom at h
  cases hloop : scanLoopF (src.length + 1) (resetState initialScanner src) with
  | error e => rw [hloop] at h; simp at h
  | ok st2 =>
    rw [hloop] at h
    simp only [Except.ok.injEq] at h
    subst h
    obtain ⟨hS, new, hT, hOk⟩ := scanLoopF_ok_inv _ hloop
    refine ⟨st2, rfl, rfl, ?_⟩
    intro u hu
    have hmem : u ∈ new := by
      have h0 : (resetState initialScanner src).tokens = [] := rfl
      rw [hT, h0] at hu
      simpa using hu
    have hok := hOk u hmem
    have hsrc : (resetState initialScanner src).source = src := rfl
    rw [hsrc] at hok
    exact ⟨hok.1.symm, hok.2⟩

/-- Witness for C2 at the concrete input `"="`. -/
theorem C2_witness :
    ∃ st2, scanLoopF (("=").data.length + 1) (resetState initialScanner ("=").data)
        = .ok st2 ∧
      ([⟨.EQUAL, ['='], none, 1, 0, 1⟩, ⟨.EOF, [], none, 1, 2, 2⟩] : List Token)
        = st2.tokens ++ [⟨.EOF, [], none, st2.line, st2.column, st2.column⟩] ∧
      ∀ u ∈ st2.tokens, pySlice ("=").data u.colStart u.colEnd = u.lexeme ∧
        u.type ≠ .EOF :=
  C2_token_slice_roundtrip ("=").data _ rfl

/-- Claim C8: an input of nothing but whitespace and `//` comments scans to
exactly one EOF token; and in general every successful scan returns a token list
whose final element — and only that element — is an EOF token, appended after
the loop with empty lexeme and no literal. -/
theorem C8_eof_termination :
    (∀ src : List Char, WsComments src → ∃ l c, scanTokensL src =
      .ok [{ type := .EOF, lexeme := [], literal := none, line := l,
             colStart := c, colEnd := c }]) ∧
    (∀ (src : List Char) (ts : List Token), scanTokensL src = .ok ts →
      ∃ ts2 t, ts = ts2 ++ [t] ∧ t.type = .EOF ∧ t.lexeme = [] ∧ t.literal = none ∧
        ∀ u ∈ ts2, u.type ≠ .EOF) := by
  constructor
  · intro src hws
    obtain ⟨st2, hrun, hT, hS⟩ := scanLoopF_ws hws (resetState initialScanner src)
      (src.length + 1) (by simp [resetState, initialScanner]) (by omega)
    refine ⟨st2.line, st2.column, ?_⟩
    unfold scanTokensL scanTokensFrom
    rw [hrun]
    have hnil : st2.tokens = [] := by rw [hT]; rfl
    simp [hnil]
  · intro src ts h
    unfold scanTokensL scanTokensFrom at h
    cases hloop : scanLoopF (src.length + 1) (resetState initialScanner src) with
    | error e => rw [hloop] at h; simp at h
    | ok st2 =>
      rw [hloop] at h
      simp only [Except.ok.injEq] at h
      subst h
      obtain ⟨hS, new, hT, hOk⟩ := scanLoopF_ok_inv _ hloop
      refine ⟨st2.tokens, _, rfl, rfl, rfl, rfl, ?_⟩
      intro u hu
      have hmem : u ∈ new := by
        have h0 : (resetState initialScanner src).tokens = [] := rfl
        rw [hT, h0] at hu
        simpa using hu
      exact (hOk u hmem).2

/-- Witness for C8 at the concrete input `"//a\n"` (one comment and a newline). -/
theorem C8_witness :
    ∃ l c, scanTokensL ("//a\n").data =
      .ok [{ type := .EOF, lexeme := [], literal := none, line := l,
             colStart := c, colEnd := c }] :=
  C8_eof_termination.1 ("//a\n").data
    (@WsComments.comment ['a'] ['\n'] (by decide) (Or.inr rfl)
      (WsComments.ws (by decide) WsComments.nil))

theorem scanTokensL_error_msg (src : List Char) (e : SHLError)
    (h : scanTokensL src = .error e) :
    e.message = "Unterminated string." ∨
    ∃ c, e.message = "Unexpected character: '" ++ String.singleton c ++ "'" := by
  unfold scanTokensL scanTokensFrom at h
  cases hloop : scanLoopF (src.length + 1) (resetState initialScanner src) with
  | error e2 =>
    rw [hloop] at h
    simp only [Except.error.injEq] at h
    subst h
    exact scanLoopF_error_msg _ hloop
  | ok st2 => rw [hloop] at h; simp at h

theorem scanToken_unexpected_iff (st : ScanState) :
    (∃ e, scanToken st = .error e ∧
      ∃ c, e.message = "Unexpected character: '" ++ String.singleton c ++ "'") ↔
    (pyIsSpace st.peek = false ∧ singleCharToken st.peek = none ∧
     st.peek ≠ '"' ∧ st.peek ≠ '\'' ∧ pyIsDigit st.peek = false ∧
     pyIsAlpha st.peek = false ∧ st.peek ≠ '_') := by
  constructor
  · rintro ⟨e, he, c, hc⟩
    simp only [scanToken] at he
    split at he
    · simp at he
    · rename_i hsp
      split at he
      · simp at he
      · split at he
        · split at he
          · split at he <;> simp at he
          · simp at he
        · rename_i hsct
          split at he
          · have hmsg := stringFn_error he
            rw [hmsg] at hc
            exact absurd hc (unterminated_ne_unexpected c)
          · rename_i hquote
            split at he
            · simp at he
            · rename_i hdig
              split at he
              · simp at he
              · rename_i halpha
                refine ⟨by simpa using hsp, hsct, ?_, ?_, by simpa using hdig, ?_, ?_⟩
                · intro hqq; exact hquote (by simp [hqq])
                · intro hqq; exact hquote (by simp [hqq])
                · by_cases hA : pyIsAlpha st.peek = true
                  · exact absurd (by simp [hA] : (pyIsAlpha st.peek || st.peek == '_') = true)
                      halpha
                  · simpa using hA
                · intro hqq; exact halpha (by simp [hqq])
  · rintro ⟨hsp, hsct, hq1, hq2, hd, ha, hu⟩
    have hq : (st.peek == '"' || st.peek == '\'') = false := by simp [hq1, hq2]
    have hslash : (st.peek == '/') = false := by simp [singleCharToken_ne_slash hsct]
    have hai : (pyIsAlpha st.peek || st.peek == '_') = false := by simp [ha, hu]
    have hrun : scanToken st = .error (SHLError.make
        ("Unexpected character: '" ++ String.singleton st.peek ++ "'") none
        (some st.advance.line) (some (st.advance.column - 1)) none none) := by
      simp [scanToken, hsp, hsct, hq, hslash, hd, hai]
    exact ⟨_, hrun, st.peek, rfl⟩

/-! ## Agreement of the Latin-1 scanner with the ASCII scanner on ASCII input -/

theorem pyIsSpaceU_ascii {c : Char} (h : c.toNat < 128) : pyIsSpaceU c = pyIsSpace c := by
  have h1 : (c.toNat == 0x85) = false := by simp only [beq_eq_false_iff_ne, ne_eq]; omega
  have h2 : (c.toNat == 0xA0) = false := by simp only [beq_eq_false_iff_ne, ne_eq]; omega
  unfold pyIsSpaceU
  rw [h1, h2, Bool.or_false, Bool.or_false]

theorem pyIsAlphaU_ascii {c : Char} (h : c.toNat < 128) : pyIsAlphaU c = pyIsAlpha c := by
  have h1 : decide (c.toNat = 0xAA ∨ c.toNat = 0xB5 ∨ c.toNat = 0xBA ∨
      (0xC0 ≤ c.toNat ∧ c.toNat ≤ 0xFF ∧ c.toNat ≠ 0xD7 ∧ c.toNat ≠ 0xF7)) = false := by
    simp only [decide_eq_false_iff_not]
    omega
  unfold pyIsAlphaU
  rw [h1, Bool.or_false]

theorem pyIsDigitU_ascii {c : Char} (h : c.toNat < 128) : pyIsDigitU c = pyIsDigit c := by
  have h1 : decide (c.toNat ∈ ([0xB2, 0xB3, 0xB9] : List Nat)) = false := by
    simp only [decide_eq_false_iff_not, List.mem_cons, List.not_mem_nil, or_false]
    omega
  unfold pyIsDigitU
  rw [h1, Bool.or_false]

theorem pyIsAlnumU_ascii {c : Char} (h : c.toNat < 128) : pyIsAlnumU c = pyIsAlnum c := by
  have h1 : decide (c.toNat ∈ ([0xBC, 0xBD, 0xBE] : List Nat)) = false := by
    simp only [decide_eq_false_iff_not, List.mem_cons, List.not_mem_nil, or_false]
    omega
  unfold pyIsAlnumU pyIsAlnum
  rw [h1, Bool.or_false, pyIsAlphaU_ascii h, pyIsDigitU_ascii h]

theorem getD_ascii : ∀ (l : List Char) (n : Nat), AsciiSrc l →
    (l.getD n '\x00').toNat < 128 := by
  intro l
  induction l with
  | nil =>
    intro n h
    rw [List.getD_nil]
    decide
  | cons a t ih =>
    intro n h
    cases n with
    | zero =>
      rw [List.getD_cons_zero]
      exact h a (by simp)
    | succ n =>
      have ht : AsciiSrc t := fun c hc => h c (by simp [hc])
      rw [List.getD_cons_succ]
      exact ih n ht

theorem ScanState.peek_ascii {st : ScanState} (h : AsciiSrc st.source) :
    st.peek.toNat < 128 :=
  getD_ascii _ _ h

theorem ScanState.peekNext_ascii {st : ScanState} (h : AsciiSrc st.source) :
    st.peekNext.toNat < 128 :=
  getD_ascii _ _ h

theorem mem_of_mem_pySlice {c : Char} {l : List Char} {a b : Nat}
    (h : c ∈ pySlice l a b) : c ∈ l := by
  unfold pySlice at h
  exact List.mem_of_mem_take (List.mem_of_mem_drop h)

theorem digitsLoopFU_ascii : ∀ (f : Nat) (st : ScanState), AsciiSrc st.source →
    digitsLoopFU f st = digitsLoopF f st := by
  intro f
  induction f with
  | zero => intro st h; rfl
  | succ f ih =>
    intro st h
    rw [digitsLoopFU, digitsLoopF, pyIsDigitU_ascii (ScanState.peek_ascii h)]
    split
    · exact ih st.advance h
    · rfl

theorem identLoopFU_ascii : ∀ (f : Nat) (st : ScanState), AsciiSrc st.source →
    identLoopFU f st = identLoopF f st := by
  intro f
  induction f with
  | zero => intro st h; rfl
  | succ f ih =>
    intro st h
    rw [identLoopFU, identLoopF, pyIsAlnumU_ascii (ScanState.peek_ascii h)]
    split
    · exact ih st.advance h
    · rfl

theorem identifierFnU_ascii {st : ScanState} (h : AsciiSrc st.source) :
    identifierFnU st = identifierFn st := by
  unfold identifierFnU identifierFn
  rw [identLoopFU_ascii _ _ h]

theorem numberFnU_ascii {st : ScanState} (h : AsciiSrc st.source) :
    numberFnU st = .ok (numberFn st) := by
  simp only [numberFnU, numberFn]
  rw [digitsLoopFU_ascii _ _ h]
  have h1 : AsciiSrc (digitsLoopF (st.source.length + 1) st).source := by
    rw [(digitsLoopF_fields _ _).2.1]
    exact h
  rw [pyIsDigitU_ascii (ScanState.peekNext_ascii h1)]
  rw [digitsLoopFU_ascii _ _ (show AsciiSrc
    (digitsLoopF (st.source.length + 1) st).advance.source from h1)]
  have h2 : AsciiSrc (if (digitsLoopF (st.source.length + 1) st).peek == '.' &&
      pyIsDigit (digitsLoopF (st.source.length + 1) st).peekNext then
        digitsLoopF ((digitsLoopF (st.source.length + 1) st).source.length + 1)
          (digitsLoopF (st.source.length + 1) st).advance
      else digitsLoopF (st.source.length + 1) st).source := by
    split
    · rw [(digitsLoopF_fields _ _).2.1]
      exact h1
    · exact h1
  rw [if_pos (List.all_eq_true.mpr (fun c hc =>
    decide_eq_true (h2 c (mem_of_mem_pySlice hc))))]

theorem scanTokenU_ascii {st0 : ScanState} (h : AsciiSrc st0.source) :
    scanTokenU st0 = liftSHL (scanToken st0) := by
  have hpk := ScanState.peek_ascii h
  have hA : AsciiSrc st0.advance.source := h
  simp only [scanTokenU, scanToken]
  rw [pyIsSpaceU_ascii hpk]
  by_cases hsp : pyIsSpace st0.peek = true
  · rw [if_pos hsp, if_pos hsp]
    rfl
  · rw [if_neg hsp, if_neg hsp]
    by_cases hcm : (st0.peek == '/' && (st0.advance.matchChar '/').1) = true
    · rw [if_pos hcm, if_pos hcm]
      rfl
    · rw [if_neg hcm, if_neg hcm]
      split
      · by_cases hla : ((st0.peek == '!' || st0.peek == '=' || st0.peek == '>' ||
            st0.peek == '<') && (st0.advance.peek == '=' || st0.advance.peek == '>')) = true
        · rw [if_pos hla, if_pos hla]
          split
          · rfl
          · rfl
        · rw [if_neg hla, if_neg hla]
          rfl
      · by_cases hq : (st0.peek == '"' || st0.peek == '\'') = true
        · rw [if_pos hq, if_pos hq]
        · rw [if_neg hq, if_neg hq, pyIsDigitU_ascii hpk]
          by_cases hd : pyIsDigit st0.peek = true
          · rw [if_pos hd, if_pos hd, numberFnU_ascii hA]
            rfl
          · rw [if_neg hd, if_neg hd, pyIsAlphaU_ascii hpk]
            by_cases ha : (pyIsAlpha st0.peek || st0.peek == '_') = true
            · rw [if_pos ha, if_pos ha, identifierFnU_ascii hA]
              rfl
            · rw [if_neg ha, if_neg ha]
              rfl

theorem scanLoopFU_ascii : ∀ (f : Nat) (st : ScanState), AsciiSrc st.source →
    scanLoopFU f st = liftSHL (scanLoopF f st) := by
  intro f
  induction f with
  | zero => intro st h; rfl
  | succ f ih =>
    intro st h
    rw [scanLoopFU, scanLoopF]
    by_cases hE : st.isAtEnd = true
    · simp [hE, liftSHL]
    · rw [if_neg hE, if_neg hE]
      have hA : AsciiSrc ({ st with start := st.current } : ScanState).source := h
      rw [scanTokenU_ascii hA]
      cases hscan : scanToken { st with start := st.current } with
      | error e => rfl
      | ok st2 =>
        have hsrc := (scanToken_ok_inv hscan).1
        have h2 : AsciiSrc st2.source := by rw [hsrc]; exact h
        exact ih st2 h2

theorem scanTokensLU_ascii {src : List Char} (h : AsciiSrc src) :
    scanTokensLU src = liftSHL (scanTokensL src) := by
  unfold scanTokensLU scanTokensL scanTokensFrom
  rw [scanLoopFU_ascii _ _ (show AsciiSrc (resetState initialScanner src).source from h)]
  cases hloop : scanLoopF (src.length + 1) (resetState initialScanner src) with
  | error e => rfl
  | ok st2 => rfl

/-- Counterexample to claim C3 as stated: under Python's Unicode-aware
character classes, which `scanTokensLU` models faithfully on the Latin-1
range, `'é'` is none of: whitespace, comment start, a table character, a
quote, an ASCII digit, an ASCII letter or underscore — yet scanning `"é"`
succeeds with an IDENTIFIER token (`str.isalpha` is Unicode-aware) instead of
raising the claimed unexpected-character error; scanning a no-break space
succeeds producing no token (`str.isspace` is Unicode-aware); and scanning
`"²"` (`isdigit`-true but not a decimal digit) fails with the `ValueError`
of `float()` — a third failure kind that is not an `SHLError` at all. -/
theorem C3_counterexample :
    (pyIsSpaceU 'é' = false ∧ 'é' ≠ '/' ∧ singleCharToken 'é' = none ∧
     'é' ≠ '"' ∧ 'é' ≠ '\'' ∧ pyIsDigit 'é' = false ∧ pyIsAlpha 'é' = false ∧
     'é' ≠ '_') ∧
    scanTokensLU ['é'] = .ok [⟨.IDENTIFIER, ['é'], none, 1, 0, 1⟩,
      ⟨.EOF, [], none, 1, 2, 2⟩] ∧
    scanTokensLU ['\xA0'] = .ok [⟨.EOF, [], none, 1, 2, 2⟩] ∧
    scanTokensLU ['²'] =
      .error (.valueError "could not convert string to float: '²'") :=
  ⟨by decide, by decide, by decide, by decide⟩

/-- Claim C3 (amended): restricted to ASCII input — where the Latin-1 scanner
agrees with the ASCII one — a scan fails only through a raised `SHLError`
whose message is one of exactly two kinds, `"Unterminated string."` or
`"Unexpected character: '{c}'"` (the raise aborting the call, no token list is
returned alongside); and one dispatch step raises the unexpected-character
error exactly when the dispatched character is none of: whitespace, a table
character (which covers the comment start `/`), a quote, a digit, a letter or
underscore. On non-ASCII input the dispatch classes are Unicode-wide and
`float()` can raise `ValueError`, so the taxonomy fails there (see the
counterexample). -/
theorem C3_error_taxonomy :
    (∀ src : List Char, AsciiSrc src → ∀ e : PyFault, scanTokensLU src = .error e →
      ∃ e', e = .shl e' ∧ (e'.message = "Unterminated string." ∨
        ∃ c, e'.message = "Unexpected character: '" ++ String.singleton c ++ "'")) ∧
    (∀ st : ScanState, AsciiSrc st.source →
      ((∃ e, scanTokenU st = .error (.shl e) ∧
        ∃ c, e.message = "Unexpected character: '" ++ String.singleton c ++ "'") ↔
      (pyIsSpaceU st.peek = false ∧ singleCharToken st.peek = none ∧
       st.peek ≠ '"' ∧ st.peek ≠ '\'' ∧ pyIsDigitU st.peek = false ∧
       pyIsAlphaU st.peek = false ∧ st.peek ≠ '_'))) := by
  constructor
  · intro src hA e h
    rw [scanTokensLU_ascii hA] at h
    cases hres : scanTokensL src with
    | error e' =>
      rw [hres] at h
      simp only [liftSHL, Except.error.injEq] at h
      exact ⟨e', h.symm, scanTokensL_error_msg src e' hres⟩
    | ok ts =>
      rw [hres] at h
      exact absurd h (by simp [liftSHL])
  · intro st hA
    have hpk := ScanState.peek_ascii hA
    have hb := scanTokenU_ascii hA
    have hiff : ∀ e : SHLError, scanTokenU st = .error (.shl e) ↔ scanToken st = .error e := by
      intro e
      rw [hb]
      cases hscan : scanToken st with
      | error e' => simp [liftSHL]
      | ok st2 => simp [liftSHL]
    rw [pyIsSpaceU_ascii hpk, pyIsDigitU_ascii hpk, pyIsAlphaU_ascii hpk]
    constructor
    · rintro ⟨e, he, hc⟩
      exact (scanToken_unexpected_iff st).mp ⟨e, (hiff e).mp he, hc⟩
    · intro hclasses
      obtain ⟨e, he, hc⟩ := (scanToken_unexpected_iff st).mpr hclasses
      exact ⟨e, (hiff e).mpr he, hc⟩

theorem twoCharDomain {c d : Char} {tt2 : TokenType} (h : twoCharToken c d = some tt2) :
    (c = '!' ∨ c = '=' ∨ c = '>' ∨ c = '<') ∧ (d = '=' ∨ d = '>') := by
  unfold twoCharToken at h
  split at h
  all_goals simp_all

theorem opstart_class {c : Char} (hc : c = '!' ∨ c = '=' ∨ c = '>' ∨ c = '<') :
    pyIsSpace c = false ∧ c ≠ '/' ∧ (∃ tt, singleCharToken c = some tt) ∧
    (c == '!' || c == '=' || c == '>' || c == '<') = true := by
  rcases hc with rfl | rfl | rfl | rfl
  · exact ⟨by decide, by decide, ⟨.BANG, rfl⟩, by decide⟩
  · exact ⟨by decide, by decide, ⟨.EQUAL, rfl⟩, by decide⟩
  · exact ⟨by decide, by decide, ⟨.GREATER, rfl⟩, by decide⟩
  · exact ⟨by decide, by decide, ⟨.LESS, rfl⟩, by decide⟩

/-- Claim C1: each of the five two-character operator sources scans to exactly
one combined token followed by EOF; `"1>2"` scans to NUMBER(1), GREATER,
NUMBER(2), EOF; and in general, dispatching on an operator-start character
followed by any character `d` either consumes both characters (when `c + d` is a
recognized two-character operator) or — after the lookahead advanced and backed
off — consumes exactly the one character `c`, leaving `current` at offset 1, so
the backtrack never swallows a character that is not part of the emitted token. -/
theorem C1_two_char_operators :
    scanTokens "!=" = .ok [⟨.BANG_EQUAL, "!=".data, none, 1, 0, 2⟩,
      ⟨.EOF, [], none, 1, 3, 3⟩] ∧
    scanTokens "==" = .ok [⟨.EQUAL_EQUAL, "==".data, none, 1, 0, 2⟩,
      ⟨.EOF, [], none, 1, 3, 3⟩] ∧
    scanTokens ">=" = .ok [⟨.GREATER_EQUAL, ">=".data, none, 1, 0, 2⟩,
      ⟨.EOF, [], none, 1, 3, 3⟩] ∧
    scanTokens "<=" = .ok [⟨.LESS_EQUAL, "<=".data, none, 1, 0, 2⟩,
      ⟨.EOF, [], none, 1, 3, 3⟩] ∧
    scanTokens "=>" = .ok [⟨.ARROW, "=>".data, none, 1, 0, 2⟩,
      ⟨.EOF, [], none, 1, 3, 3⟩] ∧
    scanTokens "1>2" = .ok [⟨.NUMBER, ['1'], some (.num 1), 1, 0, 1⟩,
      ⟨.GREATER, ['>'], none, 1, 1, 2⟩, ⟨.NUMBER, ['2'], some (.num 2), 1, 2, 3⟩,
      ⟨.EOF, [], none, 1, 4, 4⟩] ∧
    (∀ (c d : Char) (rest : List Char) (tt2 : TokenType), twoCharToken c d = some tt2 →
      scanToken ⟨[], c :: d :: rest, 0, 0, 1, 1⟩ =
        .ok ⟨[⟨tt2, [c, d], none, 1, 0, 2⟩], c :: d :: rest, 2, 0, 1, 3⟩) ∧
    (∀ (c d : Char) (rest : List Char), (c = '!' ∨ c = '=' ∨ c = '>' ∨ c = '<') →
      twoCharToken c d = none →
      ∃ tt, singleCharToken c = some tt ∧
        scanToken ⟨[], c :: d :: rest, 0, 0, 1, 1⟩ =
          .ok ⟨[⟨tt, [c], none, 1, 0, 1⟩], c :: d :: rest, 1, 0, 1, 2⟩) := by
  refine ⟨rfl, rfl, rfl, rfl, rfl, by decide, ?_, ?_⟩
  · intro c d rest tt2 h5
    obtain ⟨hc, hd⟩ := twoCharDomain h5
    obtain ⟨hsp, hslash, ⟨tt, hsct⟩, hop⟩ := opstart_class hc
    have hp0 : (⟨[], c :: d :: rest, 0, 0, 1, 1⟩ : ScanState).peek = c := rfl
    have hp1 : (⟨[], c :: d :: rest, 0, 0, 1, 1⟩ : ScanState).advance.peek = d := rfl
    have h2 : ((⟨[], c :: d :: rest, 0, 0, 1, 1⟩ : ScanState).peek == '/' &&
        ((⟨[], c :: d :: rest, 0, 0, 1, 1⟩ : ScanState).advance.matchChar '/').1) = false := by
      rw [hp0]
      simp [hslash]
    have h4 : (((⟨[], c :: d :: rest, 0, 0, 1, 1⟩ : ScanState).peek == '!' ||
        (⟨[], c :: d :: rest, 0, 0, 1, 1⟩ : ScanState).peek == '=' ||
        (⟨[], c :: d :: rest, 0, 0, 1, 1⟩ : ScanState).peek == '>' ||
        (⟨[], c :: d :: rest, 0, 0, 1, 1⟩ : ScanState).peek == '<') &&
        ((⟨[], c :: d :: rest, 0, 0, 1, 1⟩ : ScanState).advance.peek == '=' ||
         (⟨[], c :: d :: rest, 0, 0, 1, 1⟩ : ScanState).advance.peek == '>')) = true := by
      rw [hp0, hp1]
      rcases hd with rfl | rfl <;> simp [hop]
    have hrun := scanToken_twoChar (by rw [hp0]; exact hsp) h2 (by rw [hp0]; exact hsct) h4
      (by rw [hp0, hp1]; exact h5)
    rw [hrun]
    rfl
  · intro c d rest hc h5
    obtain ⟨hsp, hslash, ⟨tt, hsct⟩, hop⟩ := opstart_class hc
    refine ⟨tt, hsct, ?_⟩
    have hp0 : (⟨[], c :: d :: rest, 0, 0, 1, 1⟩ : ScanState).peek = c := rfl
    have hp1 : (⟨[], c :: d :: rest, 0, 0, 1, 1⟩ : ScanState).advance.peek = d := rfl
    have h2 : ((⟨[], c :: d :: rest, 0, 0, 1, 1⟩ : ScanState).peek == '/' &&
        ((⟨[], c :: d :: rest, 0, 0, 1, 1⟩ : ScanState).advance.matchChar '/').1) = false := by
      rw [hp0]
      simp [hslash]
    by_cases hd : ((d == '=') || (d == '>')) = true
    · have h4 : (((⟨[], c :: d :: rest, 0, 0, 1, 1⟩ : ScanState).peek == '!' ||
          (⟨[], c :: d :: rest, 0, 0, 1, 1⟩ : ScanState).peek == '=' ||
          (⟨[], c :: d :: rest, 0, 0, 1, 1⟩ : ScanState).peek == '>' ||
          (⟨[], c :: d :: rest, 0, 0, 1, 1⟩ : ScanState).peek == '<') &&
          ((⟨[], c :: d :: rest, 0, 0, 1, 1⟩ : ScanState).advance.peek == '=' ||
           (⟨[], c :: d :: rest, 0, 0, 1, 1⟩ : ScanState).advance.peek == '>')) = true := by
        rw [hp0, hp1, hop, hd]
        rfl
      have hrun := scanToken_backtrack (by rw [hp0]; exact hsp) h2 (by rw [hp0]; exact hsct)
        h4 (by rw [hp0, hp1]; exact h5)
      rw [hrun]
      rfl
    · have h4 : (((⟨[], c :: d :: rest, 0, 0, 1, 1⟩ : ScanState).peek == '!' ||
          (⟨[], c :: d :: rest, 0, 0, 1, 1⟩ : ScanState).peek == '=' ||
          (⟨[], c :: d :: rest, 0, 0, 1, 1⟩ : ScanState).peek == '>' ||
          (⟨[], c :: d :: rest, 0, 0, 1, 1⟩ : ScanState).peek == '<') &&
          ((⟨[], c :: d :: rest, 0, 0, 1, 1⟩ : ScanState).advance.peek == '=' ||
           (⟨[], c :: d :: rest, 0, 0, 1, 1⟩ : ScanState).advance.peek == '>')) = false := by
        rw [hp0, hp1]
        simp only [Bool.and_eq_false_iff]
        right
        simpa using hd
      have hrun := scanToken_single (by rw [hp0]; exact hsp) h2 (by rw [hp0]; exact hsct) h4
      rw [hrun]
      rfl

/-- Witness for C1: the backtrack case at `c = '>'`, `d = '2'` (the `"1>2"`
shape), where the single-character GREATER token consumes exactly one byte. -/
theorem C1_witness :
    ∃ tt, singleCharToken '>' = some tt ∧
      scanToken ⟨[], '>' :: '2' :: [], 0, 0, 1, 1⟩ =
        .ok ⟨[⟨tt, ['>'], none, 1, 0, 1⟩], '>' :: '2' :: [], 1, 0, 1, 2⟩ :=
  C1_two_char_operators.2.2.2.2.2.2.2 '>' '2' [] (Or.inr (Or.inr (Or.inl rfl))) rfl

/-- Claim C4: a string literal is terminated only by the same quote character
that opened it; on success the literal value is the verbatim text strictly
between the quotes, with newlines included and counted into `line`; reaching end
of input first — including mismatched quotes like `'abc"` — raises
`ScanError("Unterminated string.")` at the current line/column, the line having
been incremented once per newline seen. -/
theorem C4_string_literals :
    (∀ (q : Char) (body : List Char), (q = '"' ∨ q = '\'') → q ∉ body →
      ∃ col, scanTokensL (q :: (body ++ [q])) =
        .ok [⟨.STRING, q :: (body ++ [q]), some (.str (String.mk body)),
              1 + body.count '\n', 0, body.length + 2⟩,
             ⟨.EOF, [], none, 1 + body.count '\n', col, col⟩]) ∧
    (∀ (q : Char) (body : List Char), (q = '"' ∨ q = '\'') → q ∉ body →
      ∃ col, scanTokensL (q :: body) =
        .error (SHLError.make "Unterminated string." none (some (1 + body.count '\n'))
          (some col) none none)) ∧
    scanTokens "'abc'" = .ok [⟨.STRING, "'abc'".data, some (.str "abc"), 1, 0, 5⟩,
      ⟨.EOF, [], none, 1, 6, 6⟩] ∧
    scanTokens "\"abc\"" = .ok [⟨.STRING, "\"abc\"".data, some (.str "abc"), 1, 0, 5⟩,
      ⟨.EOF, [], none, 1, 6, 6⟩] ∧
    scanTokens "'abc\"" = .error (SHLError.make "Unterminated string." none (some 1)
      (some 6) none none) ∧
    scanTokens "'a\nb" = .error (SHLError.make "Unterminated string." none (some 2)
      (some 3) none none) := by
  refine ⟨?_, ?_, rfl, rfl, rfl, rfl⟩
  · intro q body hq hqb
    have hsp : pyIsSpace q = false := by rcases hq with rfl | rfl <;> decide
    have hsct : singleCharToken q = none := by rcases hq with rfl | rfl <;> decide
    have hqq : (q == '"' || q == '\'') = true := by rcases hq with rfl | rfl <;> simp
    have hquote := @scanToken_quote ⟨[], q :: (body ++ [q]), 0, 0, 1, 1⟩ hsp hsct hqq
    have hdrop1 : ((⟨[], q :: (body ++ [q]), 0, 0, 1, 1⟩ : ScanState).advance.source.drop
        (⟨[], q :: (body ++ [q]), 0, 0, 1, 1⟩ : ScanState).advance.current)
        = body ++ q :: [] := by
      simp [ScanState.advance]
    obtain ⟨col, hloop⟩ := stringLoopF_consume q body
      (⟨[], q :: (body ++ [q]), 0, 0, 1, 1⟩ : ScanState).advance
      ((⟨[], q :: (body ++ [q]), 0, 0, 1, 1⟩ : ScanState).advance.source.length + 1) hqb hdrop1
      (by simp [ScanState.advance] <;> omega)
    have hslice1 : pySlice (q :: (body ++ [q])) 1 (body.length + 1) = body := by
      simp [pySlice, List.take_succ_cons, List.take_left]
    have hslice0 : pySlice (q :: (body ++ [q])) 0 (body.length + 2) = q :: (body ++ [q]) := by
      have hL : (q :: (body ++ [q])).length = body.length + 2 := by simp
      rw [pySlice, ← hL, List.take_length, List.drop_zero]
    have hsf : stringFn q (⟨[], q :: (body ++ [q]), 0, 0, 1, 1⟩ : ScanState).advance =
        .ok ⟨[⟨.STRING, q :: (body ++ [q]), some (.str (String.mk body)),
              1 + body.count '\n', 0, body.length + 2⟩],
             q :: (body ++ [q]), body.length + 2, 0, 1 + body.count '\n', col + 1⟩ := by
      simp only [stringFn]
      rw [hloop]
      rw [if_neg (by simp [ScanState.isAtEnd, ScanState.advance] <;> omega)]
      simp [ScanState.advance, ScanState.addToken]
      refine ⟨⟨?_, ?_, by omega⟩, by omega⟩
      · rw [show 1 + body.length + 1 = body.length + 2 from by omega]
        exact hslice0
      · rw [show 1 + body.length = body.length + 1 from by omega, hslice1]
    have hA0 : (⟨[], q :: (body ++ [q]), 0, 0, 1, 1⟩ : ScanState).isAtEnd = false := by
      simp [ScanState.isAtEnd]
    refine ⟨col + 1, ?_⟩
    rw [scanTokensL_eq]
    rw [scanLoopF_step_ok ((q :: (body ++ [q])).length + 1) (by omega) hA0
      (hquote.trans hsf)]
    rw [scanLoopF_step_end ((q :: (body ++ [q])).length + 1 - 1) (by simp <;> omega) (by
      simp [ScanState.isAtEnd] <;> omega)]
    simp
  · intro q body hq hqb
    have hsp : pyIsSpace q = false := by rcases hq with rfl | rfl <;> decide
    have hsct : singleCharToken q = none := by rcases hq with rfl | rfl <;> decide
    have hqq : (q == '"' || q == '\'') = true := by rcases hq with rfl | rfl <;> simp
    have hquote := @scanToken_quote ⟨[], q :: body, 0, 0, 1, 1⟩ hsp hsct hqq
    have hdrop1 : ((⟨[], q :: body, 0, 0, 1, 1⟩ : ScanState).advance.source.drop
        (⟨[], q :: body, 0, 0, 1, 1⟩ : ScanState).advance.current) = body := by
      simp [ScanState.advance]
    obtain ⟨col, hloop⟩ := stringLoopF_toEnd q body
      (⟨[], q :: body, 0, 0, 1, 1⟩ : ScanState).advance
      ((⟨[], q :: body, 0, 0, 1, 1⟩ : ScanState).advance.source.length + 1) hqb hdrop1
      (by simp [ScanState.advance] <;> omega)
    have hsf : stringFn q (⟨[], q :: body, 0, 0, 1, 1⟩ : ScanState).advance =
        .error (SHLError.make "Unterminated string." none (some (1 + body.count '\n'))
          (some col) none none) := by
      simp only [stringFn]
      rw [hloop]
      rw [if_pos (by simp [ScanState.isAtEnd, ScanState.advance] <;> omega)]
      simp [ScanState.advance]
    have hA0 : (⟨[], q :: body, 0, 0, 1, 1⟩ : ScanState).isAtEnd = false := by
      simp [ScanState.isAtEnd]
    refine ⟨col, ?_⟩
    rw [scanTokensL_eq]
    rw [scanLoopF_step_err ((q :: body).length + 1) (by omega) hA0 (hquote.trans hsf)]

/-- Witness for C4: the success case at `q = '"'`, `body = "x"`. -/
theorem C4_witness :
    ∃ col, scanTokensL ('"' :: (['x'] ++ ['"'])) =
      .ok [⟨.STRING, '"' :: (['x'] ++ ['"']), some (.str (String.mk ['x'])),
            1 + (['x'] : List Char).count '\n', 0, (['x'] : List Char).length + 2⟩,
           ⟨.EOF, [], none, 1 + (['x'] : List Char).count '\n', col, col⟩] :=
  C4_string_literals.1 '"' ['x'] (Or.inl rfl) (by decide)

theorem scanToken_dot {st : ScanState} (hp : st.peek = '.') :
    scanToken st = .ok (st.advance.addToken .DOT none) := by
  have h1 : pyIsSpace st.peek = false := by rw [hp]; decide
  have h3 : singleCharToken st.peek = some .DOT := by rw [hp]; decide
  have h2 : (st.peek == '/' && (st.advance.matchChar '/').1) = false := by
    rw [hp]
    simp [show (('.' : Char) == '/') = false from by decide]
  have h4 : ((st.peek == '!' || st.peek == '=' || st.peek == '>' || st.peek == '<') &&
      (st.advance.peek == '=' || st.advance.peek == '>')) = false := by
    rw [hp]
    simp [show (('.' : Char) == '!') = false from by decide,
      show (('.' : Char) == '=') = false from by decide,
      show (('.' : Char) == '>') = false from by decide,
      show (('.' : Char) == '<') = false from by decide]
  exact scanToken_single h1 h2 h3 h4

/-- Claim C10: a leading `'.'` never begins a numeric literal — scanning `'.'`
followed by digits emits a DOT token for the dot alone and then a separate
NUMBER token for the digit run; in general, any dispatch on `'.'` emits a
one-character DOT token. -/
theorem C10_leading_dot :
    (∀ ds : List Char, ds ≠ [] → (∀ c ∈ ds, pyIsDigit c = true) →
      scanTokensL ('.' :: ds) = .ok [
        ⟨.DOT, ['.'], none, 1, 0, 1⟩,
        ⟨.NUMBER, ds, some (.num (digitsVal ds)), 1, 1, ds.length + 1⟩,
        ⟨.EOF, [], none, 1, ds.length + 2, ds.length + 2⟩]) ∧
    (∀ st : ScanState, st.peek = '.' →
      scanToken st = .ok (st.advance.addToken .DOT none)) := by
  constructor
  · intro ds hne hds
    cases ds with
    | nil => exact absurd rfl hne
    | cons d0 ds2 =>
      have hstep1 : scanToken (⟨[], '.' :: d0 :: ds2, 0, 0, 1, 1⟩ : ScanState) =
          .ok ⟨[⟨.DOT, ['.'], none, 1, 0, 1⟩], '.' :: d0 :: ds2, 1, 0, 1, 2⟩ :=
        (@scanToken_dot ⟨[], '.' :: d0 :: ds2, 0, 0, 1, 1⟩ rfl).trans rfl
      have hstep2 := @scanToken_digit
        (⟨[⟨.DOT, ['.'], none, 1, 0, 1⟩], '.' :: d0 :: ds2, 1, 1, 1, 2⟩ : ScanState)
        (hds d0 (by simp))
      have hnum := @numberFn_run_nodot
        ((⟨[⟨.DOT, ['.'], none, 1, 0, 1⟩], '.' :: d0 :: ds2, 1, 1, 1, 2⟩ : ScanState).advance)
        ds2 [] (fun c hc => hds c (by simp [hc])) (by simp [ScanState.advance])
        (by intro r hr; simp at hr) (by intro hr; simp at hr)
      have hsl : pySlice ('.' :: d0 :: ds2) 1 (2 + ds2.length) = d0 :: ds2 := by
        rw [pySlice, show 2 + ds2.length = ('.' :: d0 :: ds2).length from by simp <;> omega,
          List.take_length]
        rfl
      rw [scanTokensL_eq]
      rw [scanLoopF_step_ok (('.' :: d0 :: ds2).length + 1) (by omega)
        (by simp [ScanState.isAtEnd]) hstep1]
      rw [scanLoopF_step_ok (('.' :: d0 :: ds2).length + 1 - 1) (by simp)
        (by simp [ScanState.isAtEnd]) hstep2]
      rw [hnum]
      rw [scanLoopF_step_end (('.' :: d0 :: ds2).length + 1 - 1 - 1)
        (by simp <;> omega)
        (by simp [ScanState.isAtEnd, ScanState.advance, ScanState.addToken] <;> omega)]
      simp [ScanState.advance, ScanState.addToken, hsl,
        pyFloat_digits hds, digitsVal]
      omega
  · intro st hp
    exact scanToken_dot hp

set_option maxHeartbeats 1600000 in
/-- Claim C7: number scanning consumes digits, then a single `'.'` only when the
character after it is itself a digit (otherwise the dot is left unconsumed for
the next token), then more digits; the literal is the decimal value of the
matched substring — `"3.14"` gives literal `157/50` (the exact decimal value),
and `"3."` gives a NUMBER with literal `3` followed by a DOT token; in general
`digits ++ "."` scans to NUMBER then DOT, and `digits "." digits` scans to one
NUMBER whose literal is `int + frac / 10 ^ (number of fraction digits)`. -/
theorem C7_number_scanning :
    scanTokens "3.14" = .ok [⟨.NUMBER, "3.14".data, some (.num (mkRat 157 50)), 1, 0, 4⟩,
      ⟨.EOF, [], none, 1, 5, 5⟩] ∧
    scanTokens "3." = .ok [⟨.NUMBER, ['3'], some (.num 3), 1, 0, 1⟩,
      ⟨.DOT, ['.'], none, 1, 1, 2⟩, ⟨.EOF, [], none, 1, 3, 3⟩] ∧
    (∀ ds : List Char, ds ≠ [] → (∀ c ∈ ds, pyIsDigit c = true) →
      scanTokensL (ds ++ ['.']) = .ok [
        ⟨.NUMBER, ds, some (.num (digitsVal ds)), 1, 0, ds.length⟩,
        ⟨.DOT, ['.'], none, 1, ds.length, ds.length + 1⟩,
        ⟨.EOF, [], none, 1, ds.length + 2, ds.length + 2⟩]) ∧
    (∀ ds1 ds2 : List Char, ds1 ≠ [] → ds2 ≠ [] →
      (∀ c ∈ ds1, pyIsDigit c = true) → (∀ c ∈ ds2, pyIsDigit c = true) →
      scanTokensL (ds1 ++ '.' :: ds2) = .ok [
        ⟨.NUMBER, ds1 ++ '.' :: ds2,
          some (.num (mkRat (digitsToNat ds1 * 10 ^ ds2.length + digitsToNat ds2)
            (10 ^ ds2.length))), 1, 0, ds1.length + 1 + ds2.length⟩,
        ⟨.EOF, [], none, 1, ds1.length + ds2.length + 2, ds1.length + ds2.length + 2⟩]) := by
  refine ⟨by decide, by decide, ?_, ?_⟩
  · intro ds hne hds
    cases ds with
    | nil => exact absurd rfl hne
    | cons d0 ds2 =>
      have hstep1 := @scanToken_digit (⟨[], (d0 :: ds2) ++ ['.'], 0, 0, 1, 1⟩ : ScanState)
        (hds d0 (by simp))
      have hnum := @numberFn_run_nodot
        ((⟨[], (d0 :: ds2) ++ ['.'], 0, 0, 1, 1⟩ : ScanState).advance)
        ds2 ['.'] (fun c hc => hds c (by simp [hc])) (by simp [ScanState.advance])
        (by intro r hr; simp at hr; subst hr; decide)
        (by
          intro _
          rw [getD_default_of_le _ (by simp [ScanState.advance] <;> omega)]
          decide)
      have hsl : pySlice ((d0 :: ds2) ++ ['.']) 0 (1 + ds2.length) = d0 :: ds2 := by
        rw [pySlice, List.drop_zero, show 1 + ds2.length = (d0 :: ds2).length from by
          simp <;> omega, List.take_left]
      have hdropDot : ((d0 :: ds2) ++ ['.']).drop (1 + ds2.length) = ['.'] := by
        have h0 : ((d0 :: ds2) ++ ['.']).drop 0 = (d0 :: ds2) ++ ['.'] := rfl
        have := drop_add_of_drop h0
        rw [show (0 + (d0 :: ds2).length) = 1 + ds2.length from by simp <;> omega] at this
        exact this
      have hslDot : pySlice ((d0 :: ds2) ++ ['.']) (1 + ds2.length) (2 + ds2.length) = ['.'] := by
        rw [pySlice, show 2 + ds2.length = ((d0 :: ds2) ++ ['.']).length from by
          simp <;> omega, List.take_length]
        exact hdropDot
      have hstep2 := @scanToken_dot
        (⟨[⟨.NUMBER, pySlice ((d0 :: ds2) ++ ['.']) 0 (1 + ds2.length),
            some (.num (pyFloat (pySlice ((d0 :: ds2) ++ ['.']) 0 (1 + ds2.length)))),
            1, 0, 1 + ds2.length⟩],
          (d0 :: ds2) ++ ['.'], 1 + ds2.length, 1 + ds2.length, 1, 2 + ds2.length⟩ : ScanState)
        (ScanState.peek_of_drop (by simpa using hdropDot))
      rw [scanTokensL_eq]
      rw [scanLoopF_step_ok (((d0 :: ds2) ++ ['.']).length + 1) (by omega)
        (by simp [ScanState.isAtEnd]) hstep1]
      rw [hnum]
      rw [scanLoopF_step_ok (((d0 :: ds2) ++ ['.']).length + 1 - 1) (by simp)
        (by simp [ScanState.isAtEnd, ScanState.advance, ScanState.addToken] <;> omega) hstep2]
      rw [scanLoopF_step_end (((d0 :: ds2) ++ ['.']).length + 1 - 1 - 1)
        (by simp <;> omega)
        (by simp [ScanState.isAtEnd, ScanState.advance, ScanState.addToken] <;> omega)]
      simp [ScanState.advance, ScanState.addToken]
      have hsl' : pySlice (d0 :: (ds2 ++ ['.'])) 0 (1 + ds2.length) = d0 :: ds2 := hsl
      have hslDot' : pySlice (d0 :: (ds2 ++ ['.'])) (1 + ds2.length) (2 + ds2.length)
          = ['.'] := hslDot
      refine ⟨⟨hsl', ?_, by omega⟩, ⟨?_, by omega⟩, by omega⟩
      · rw [hsl', pyFloat_digits hds]
      · rw [show 1 + ds2.length + 1 = 2 + ds2.length from by omega]
        exact hslDot'
  · intro ds1 ds2 hne1 hne2 h1 h2
    cases ds1 with
    | nil => exact absurd rfl hne1
    | cons d0 ds1t =>
      cases ds2 with
      | nil => exact absurd rfl hne2
      | cons d2 ds2t =>
        have hstep1 := @scanToken_digit
          (⟨[], (d0 :: ds1t) ++ '.' :: d2 :: ds2t, 0, 0, 1, 1⟩ : ScanState)
          (h1 d0 (by simp))
        have hnum := @numberFn_run_dot
          ((⟨[], (d0 :: ds1t) ++ '.' :: d2 :: ds2t, 0, 0, 1, 1⟩ : ScanState).advance)
          ds1t ds2t d2 (fun c hc => h1 c (by simp [hc])) h2
          (by simp [ScanState.advance])
        have hsl : pySlice ((d0 :: ds1t) ++ '.' :: d2 :: ds2t) 0
            (1 + ds1t.length + 1 + (ds2t.length + 1)) = (d0 :: ds1t) ++ '.' :: d2 :: ds2t := by
          rw [pySlice, List.drop_zero, show 1 + ds1t.length + 1 + (ds2t.length + 1)
            = ((d0 :: ds1t) ++ '.' :: d2 :: ds2t).length from by simp <;> omega,
            List.take_length]
        rw [scanTokensL_eq]
        rw [scanLoopF_step_ok (((d0 :: ds1t) ++ '.' :: d2 :: ds2t).length + 1) (by omega)
          (by simp [ScanState.isAtEnd]) hstep1]
        rw [hnum]
        rw [scanLoopF_step_end (((d0 :: ds1t) ++ '.' :: d2 :: ds2t).length + 1 - 1)
          (by simp)
          (by simp [ScanState.isAtEnd, ScanState.advance, ScanState.addToken] <;> omega)]
        have hfloat : pyFloat ((d0 :: ds1t) ++ '.' :: d2 :: ds2t)
            = mkRat (digitsToNat (d0 :: ds1t) * 10 ^ (d2 :: ds2t).length
                + digitsToNat (d2 :: ds2t)) (10 ^ (d2 :: ds2t).length) :=
          pyFloat_frac h1
        simp [ScanState.advance, ScanState.addToken]
        have hsl' : pySlice (d0 :: (ds1t ++ '.' :: d2 :: ds2t)) 0
            (1 + ds1t.length + 1 + (ds2t.length + 1))
            = d0 :: (ds1t ++ '.' :: d2 :: ds2t) := hsl
        refine ⟨⟨hsl', ?_, by omega⟩, by omega⟩
        rw [hsl']
        exact hfloat

/-- Witness for C7: the dot-not-consumed case at `ds = "4"` (input `"4."`). -/
theorem C7_witness :
    scanTokensL (['4'] ++ ['.']) = .ok [
      ⟨.NUMBER, ['4'], some (.num (digitsVal ['4'])), 1, 0, (['4'] : List Char).length⟩,
      ⟨.DOT, ['.'], none, 1, (['4'] : List Char).length, (['4'] : List Char).length + 1⟩,
      ⟨.EOF, [], none, 1, (['4'] : List Char).length + 2, (['4'] : List Char).length + 2⟩] :=
  C7_number_scanning.2.2.1 ['4'] (by decide) (by decide)

/-- Witness for C10 at the concrete input `".5"`. -/
theorem C10_witness :
    scanTokensL ('.' :: ['5']) = .ok [
      ⟨.DOT, ['.'], none, 1, 0, 1⟩,
      ⟨.NUMBER, ['5'], some (.num (digitsVal ['5'])), 1, 1, (['5'] : List Char).length + 1⟩,
      ⟨.EOF, [], none, 1, (['5'] : List Char).length + 2, (['5'] : List Char).length + 2⟩] :=
  C10_leading_dot.1 ['5'] (by decide) (by decide)

/-- Witness for C3 at the concrete ASCII input `"@"`. -/
theorem C3_witness :
    ∃ e', (PyFault.shl (SHLError.make "Unexpected character: '@'" none (some 1)
        (some 1) none none) : PyFault) = .shl e' ∧
      (e'.message = "Unterminated string." ∨
       ∃ c, e'.message = "Unexpected character: '" ++ String.singleton c ++ "'") :=
  C3_error_taxonomy.1 ['@'] (by decide) _ rfl

end PyShlang
